import Mathlib

/-!
# helm-s3-index-restore

A shallow embedding of `main.go` and `types.go`.

Modelling conventions.

* Go strings are Lean `String`s.  Go compares and slices strings bytewise; on
  valid UTF-8 text the bytewise order is the code-point order and a bytewise
  suffix test against valid UTF-8 agrees with the code-point one, so the Lean
  order on `String` and a suffix test on `String.data` are used.
* Byte slices (`[]byte`, the archive member contents and the serialised
  document) are `String`s too.
* A Go `map[string]T` is a list of key/value pairs with pairwise distinct keys.
  For `range` over a map the list is read in the (unspecified) iteration order.
* `log.Fatal` and a runtime panic end the process: a computation returns
  `Except Exit _`.  What the process did to the outside world before it ended is
  kept as a list of `Effect`s, in program order.
* The AWS client, gzip/tar readers, the YAML library, the clock and the file
  system are external: they are the fields of `Env`.
-/

namespace HelmRestore

/-! ## Strings -/

/-- Go `strings.HasSuffix(s, suffix)`:
`len(s) >= len(suffix) && s[len(s)-len(suffix):] == suffix`. -/
def HasSuffix (s suffix : String) : Bool :=
  decide (s.length ≥ suffix.length) && (s.data.drop (s.length - suffix.length) == suffix.data)

/-! ## types.go -/

structure Annotation where
  Purpose : String
  deriving DecidableEq, Repr

structure Maintainer where
  Email : String
  Name : String
  Url : String
  deriving DecidableEq, Repr

structure Entry where
  Annotations : Annotation
  ApiVersion : String
  Created : String
  Description : String
  Digest : String
  Icon : String
  KubeVersion : String
  Maintainers : List Maintainer
  Name : String
  Urls : List String
  Version : String
  deriving DecidableEq, Repr

structure Index where
  ApiVersion : String
  Entries : List (String × List Entry)
  Generated : String
  deriving DecidableEq, Repr

/-! ## Go maps -/

/-- Reading `m[k]` on a `map[string][]Entry`: the stored slice, or the nil
slice when the key is absent. -/
def mapGet : List (String × List Entry) → String → List Entry
  | [], _ => []
  | (k', v) :: rest, k => if k' = k then v else mapGet rest k

/-- The assignment `m[k] = v`: the binding of `k` is replaced, or a new binding is
added when `k` is absent. -/
def mapSet : List (String × List Entry) → String → List Entry → List (String × List Entry)
  | [], k, v => [(k, v)]
  | (k', v') :: rest, k, v => if k' = k then (k, v) :: rest else (k', v') :: mapSet rest k v

/-- The value of `m[k]` together with the presence bit, for a `map[string]string`. -/
def mapLookup : List (String × String) → String → Option String
  | [], _ => none
  | (k', v) :: rest, k => if k' = k then some v else mapLookup rest k

/-! ## The outside world -/

/-- A `time.Time`, as nanoseconds since the Unix epoch. -/
structure Time where
  unixNano : Int
  deriving DecidableEq, Repr

/-- The layout constant `time.RFC3339Nano`. -/
def RFC3339Nano : String := "2006-01-02T15:04:05.999999999Z07:00"

/-- An element of `ListObjectsOutput.Contents` (`types.Object`), with the two fields
that `main` reads.  Both are pointers in Go; the listing call sets them, and they are
taken to be non-nil. -/
structure Object where
  Key : String
  LastModified : Time
  deriving DecidableEq, Repr

/-- The fields of `s3.GetObjectOutput` that `main` reads.  `Metadata` lists the
bindings of the map in the order in which `range` visits them. -/
structure GetObjectOutput where
  Body : String
  Metadata : List (String × String)
  deriving DecidableEq, Repr

/-- The `tar.Header` of a member; only `Name` is read. -/
structure Header where
  Name : String
  deriving DecidableEq, Repr

deriving instance DecidableEq for Except

/-- One answer of `tr.Next()`.  `member h body`: the header `h` was returned with a nil
error, and `body` is what `ioutil.ReadAll(tr)` gives when it is called for this
member.  `failure err`: an error other than `io.EOF` was returned.  The end of
the list of answers is `io.EOF`. -/
inductive TarNext where
  | member (h : Header) (body : Except String String)
  | failure (err : String)
  deriving DecidableEq

/-- How the process ended abnormally. -/
inductive Exit where
  | fatal (msg : String)
  | panic (msg : String)
  deriving DecidableEq, Repr

/-- What the process did to the outside world. -/
inductive Effect where
  | println (line : String)
  | printDefaults
  | listObjects (bucket : String) (keyPrefix : String)
  | getObject (bucket : String) (key : String)
  | putObject (bucket : String) (key : String) (body : String)
  | writeFile (name : String) (data : String) (perm : Nat)
  deriving DecidableEq, Repr

/-- The external collaborators of `main`. -/
structure Env where
  /-- Answer of `awsConfig.LoadDefaultConfig` for a profile. -/
  LoadDefaultConfig : String → Except String Unit
  /-- Answer of `ListObjects` for a bucket and a key prefix: `Contents`. -/
  ListObjects : String → String → Except String (List Object)
  /-- Answer of `GetObject` for a bucket and a key. -/
  GetObject : String → String → Except String GetObjectOutput
  /-- Answer of `gzip.NewReader` on a body, and on success the answers that
  the `tar.NewReader` on top of it gives to successive `Next` calls. -/
  gzipNewReader : String → Except String (List TarNext)
  /-- Answer of `yaml.Unmarshal(fileContent, &entry)` on a zero `Entry`. -/
  yamlUnmarshal : String → Except String Entry
  /-- Value of `t.Format(layout)`. -/
  Format : Time → String → String
  /-- Value of `time.Now()` at line 123. -/
  Now : Time
  /-- Answer of the YAML encoder with the given indent on an index. -/
  yamlEncode : Nat → Index → Except String String
  /-- Answer of `PutObject` for a bucket, a key and a body. -/
  PutObject : String → String → String → Except String Unit
  /-- Answer of `ioutil.WriteFile` for a name, the data and the permission bits. -/
  WriteFile : String → String → Nat → Except String Unit

/-! ## main.go -/

/-- The command line, as `flag.Parse` reads it into the four package variables. -/
structure Flags where
  bucket : String
  directory : String
  profile : String
  upload : Bool
  deriving DecidableEq, Repr

/-- The package variables after `init`. -/
structure Config where
  s3BucketName : String
  s3KeyPrefix : String
  awsProfile : String
  directUpload : Bool
  deriving DecidableEq, Repr

/-- Lines 43-45 of `init`: the directory option gets a trailing slash. -/
def normalize (s3KeyPrefix : String) : String :=
  if s3KeyPrefix.length > 0 && !HasSuffix s3KeyPrefix "/" then s3KeyPrefix ++ "/" else s3KeyPrefix

/-- The function `init` (lines 30-46). -/
def init (flags : Flags) : List Effect × Except Exit Config :=
  if flags.bucket.length = 0 || flags.profile.length = 0 then
    ([Effect.println "Not all required arguments are set:", Effect.printDefaults],
      .error (.fatal "Please set all required arguments"))
  else
    ([], .ok { s3BucketName := flags.bucket, s3KeyPrefix := normalize flags.directory,
               awsProfile := flags.profile, directUpload := flags.upload })

/-- The function `digistFromMetadata` (lines 157-165): the Go pair `(string, error)`, the
error being `none` for nil. -/
def digistFromMetadata : List (String × String) → String × Option String
  | [] => ("", some "No digist found in the metadata")
  | (key, value) :: rest =>
    if key = "chart-digest" then (value, none) else digistFromMetadata rest

/-- The loop variables of `main`: `index` and `apiVersions` (lines 63-64). -/
structure Vars where
  index : Index
  apiVersions : List String
  deriving DecidableEq, Repr

/-- Lines 113-114 of `main`: the finished entry is appended to the slice stored under its
name, and its schema version is recorded. -/
def addEntry (v : Vars) (entry : Entry) : Vars :=
  { index := { v.index with
      Entries := mapSet v.index.Entries entry.Name (mapGet v.index.Entries entry.Name ++ [entry]) },
    apiVersions := v.apiVersions ++ [entry.ApiVersion] }

/-- Lines 63-64 of `main`: the empty index and the empty version list. -/
def initVars : Vars :=
  { index := { ApiVersion := "", Entries := [], Generated := "" }, apiVersions := [] }

/-- The inner loop of `main` over the members of one archive (lines 85-118). -/
def tarLoop (env : Env) (url : String) (objectListing : Object) (object : GetObjectOutput) :
    List TarNext → Vars → Except Exit Vars
  | [], v => .ok v
  | .failure err :: _, _ => .error (.fatal ("Reading Tar file: " ++ err))
  | .member h body :: rest, v =>
    if HasSuffix h.Name "Chart.yaml" then
      match body with
      | .error err => .error (.fatal ("Error reading chart.yaml: " ++ err))
      | .ok fileContent =>
        match env.yamlUnmarshal fileContent with
        | .error err => .error (.fatal ("Error parsing chart.yaml: " ++ err))
        | .ok entry =>
          let entry := { entry with Urls := entry.Urls ++ [url] }
          let entry := { entry with Created := env.Format objectListing.LastModified RFC3339Nano }
          let r := digistFromMetadata object.Metadata
          let entry := { entry with Digest := r.1 }
          match r.2 with
          | some err => .error (.fatal ("Error parsing metadata: " ++ err))
          | none => .ok (addEntry v entry)
    else tarLoop env url objectListing object rest v

/-- The outer loop of `main` over `objectsList.Contents` (lines 66-119). -/
def mainLoop (env : Env) (cfg : Config) : List Object → Vars → List Effect × Except Exit Vars
  | [], v => ([], .ok v)
  | objectListing :: rest, v =>
    if !HasSuffix objectListing.Key ".tgz" then mainLoop env cfg rest v
    else
      let url := "s3://" ++ cfg.s3BucketName ++ "/" ++ objectListing.Key
      let t := [Effect.println ("Parsing information from " ++ url),
                Effect.getObject cfg.s3BucketName objectListing.Key]
      match env.GetObject cfg.s3BucketName objectListing.Key with
      | .error err => (t, .error (.fatal ("Get object error: " ++ err)))
      | .ok object =>
        match env.gzipNewReader object.Body with
        | .error err => (t, .error (.fatal ("Reading Gzip file: " ++ err)))
        | .ok tr =>
          match tarLoop env url objectListing object tr v with
          | .error e => (t, .error e)
          | .ok v' =>
            let r := mainLoop env cfg rest v'
            (t ++ r.1, r.2)

/-- Go `sort.Strings`: the slice in increasing order of Go string comparison
(lexicographic). -/
def sortStrings (xs : List String) : List String :=
  xs.insertionSort (fun a b => a.data ≤ b.data)

/-- The index expression `apiVersions[len(apiVersions)-1]` of line 122, with Go run-time bounds
check on the signed index. -/
def lastElem (apiVersions : List String) : Except Exit String :=
  let i : Int := (apiVersions.length : Int) - 1
  if h : 0 ≤ i ∧ i < apiVersions.length then
    .ok (apiVersions.get ⟨i.toNat, by omega⟩)
  else
    .error (.panic "runtime error: index out of range [-1]")

/-- Lines 121-123 of `main`: the index that is handed to the encoder. -/
def assemble (env : Env) (v : Vars) : Except Exit Index :=
  let apiVersions := sortStrings v.apiVersions
  match lastElem apiVersions with
  | .error e => .error e
  | .ok a =>
    let index := { v.index with ApiVersion := a }
    .ok { index with Generated := env.Format env.Now RFC3339Nano }

/-- Lines 121-154 of `main`: version selection, serialisation and the sink. -/
def finish (env : Env) (cfg : Config) (v : Vars) : List Effect × Except Exit Unit :=
  match assemble env v with
  | .error e => ([], .error e)
  | .ok index =>
    let t := [Effect.println "Generating new index.yaml"]
    match env.yamlEncode 2 index with
    | .error err => (t, .error (.fatal ("Error creating index.yaml: " ++ err)))
    | .ok data =>
      if cfg.directUpload then
        let indexKey := cfg.s3KeyPrefix ++ "index.yaml"
        let t := t ++ [Effect.println "Uploading new index.yaml",
                       Effect.putObject cfg.s3BucketName indexKey data]
        match env.PutObject cfg.s3BucketName indexKey data with
        | .error err => (t, .error (.fatal ("Error writing index.yaml to bucket:" ++ err)))
        | .ok _ =>
          (t ++ [Effect.println ("Succesfully restored s3://" ++ cfg.s3BucketName ++ "/"
                  ++ cfg.s3KeyPrefix ++ "index.yaml")], .ok ())
      else
        let t := t ++ [Effect.writeFile "index.yaml" data 0o664]
        match env.WriteFile "index.yaml" data 0o664 with
        | .error err => (t, .error (.fatal ("Error writing index.yaml to file:" ++ err)))
        | .ok _ => (t ++ [Effect.println "Succesfully generated index.yaml"], .ok ())

/-- The function `main` (lines 48-155). -/
def main (env : Env) (cfg : Config) : List Effect × Except Exit Unit :=
  let t := [Effect.println ("Starting the restoration of s3://" ++ cfg.s3BucketName ++ "/"
              ++ cfg.s3KeyPrefix ++ "index.yaml")]
  match env.LoadDefaultConfig cfg.awsProfile with
  | .error err => (t, .error (.fatal ("Configuration error: " ++ err)))
  | .ok _ =>
    let t := t ++ [Effect.listObjects cfg.s3BucketName cfg.s3KeyPrefix]
    match env.ListObjects cfg.s3BucketName cfg.s3KeyPrefix with
    | .error err => (t, .error (.fatal ("List bucket content error: " ++ err)))
    | .ok objectsList =>
      let r := mainLoop env cfg objectsList initVars
      match r.2 with
      | .error e => (t ++ r.1, .error e)
      | .ok v =>
        let f := finish env cfg v
        (t ++ r.1 ++ f.1, f.2)

/-- The whole process: `init`, then `main`. -/
def run (env : Env) (flags : Flags) : List Effect × Except Exit Unit :=
  match init flags with
  | (t, .error e) => (t, .error e)
  | (t, .ok cfg) =>
    let r := main env cfg
    (t ++ r.1, r.2)

/-! ## The specification's reading of one archive -/

/-- Whether an answer of the tar reader ends the scan of an archive: a read error, or a
member whose name ends in `Chart.yaml`. -/
def stopsScan : TarNext → Bool
  | .failure _ => true
  | .member h _ => HasSuffix h.Name "Chart.yaml"

/-- The entry that the specification builds from one archive: the object is fetched and
decompressed, the first member whose name ends in `Chart.yaml` is its manifest, the
manifest is parsed, and the storage URL, the creation timestamp and the digest found
under the metadata key `chart-digest` are attached.  `none` when the archive cannot be
read up to a manifest, the manifest does not parse, or the digest is absent. -/
def specArchiveEntry (env : Env) (cfg : Config) (o : Object) : Option Entry :=
  match env.GetObject cfg.s3BucketName o.Key with
  | .error _ => none
  | .ok object =>
    match env.gzipNewReader object.Body with
    | .error _ => none
    | .ok tr =>
      match tr.find? stopsScan with
      | some (.member _ (.ok manifest)) =>
        match env.yamlUnmarshal manifest, mapLookup object.Metadata "chart-digest" with
        | .ok parsed, some digest =>
          some { parsed with
            Urls := parsed.Urls ++ ["s3://" ++ cfg.s3BucketName ++ "/" ++ o.Key]
            Created := env.Format o.LastModified RFC3339Nano
            Digest := digest }
        | _, _ => none
      | _ => none

/-- The archives of a listing: the objects whose key ends in `.tgz`, in listing order. -/
def archives (objs : List Object) : List Object :=
  objs.filter (fun o => HasSuffix o.Key ".tgz")

/-- The entries that the specification builds from a listing, in listing order. -/
def specEntries (env : Env) (cfg : Config) (objs : List Object) : List Entry :=
  (archives objs).filterMap (specArchiveEntry env cfg)

/-- All the entries stored in an index, whatever their key. -/
def allEntries (index : Index) : List Entry :=
  index.Entries.flatMap Prod.snd

/-- An effect that produces the output document: the local file write or the upload. -/
def isOutput : Effect → Bool
  | .putObject _ _ _ => true
  | .writeFile _ _ _ => true
  | _ => false

/-! ## A sample bucket -/

/-- The zero value of `Entry`. -/
def zeroEntry : Entry :=
  { Annotations := { Purpose := "" }, ApiVersion := "", Created := "", Description := "",
    Digest := "", Icon := "", KubeVersion := "", Maintainers := [], Name := "", Urls := [],
    Version := "" }

/-- A manifest parser given by a table: the YAML library's answer on the four
manifests of the sample bucket, and an error elsewhere. -/
def sampleUnmarshal (fileContent : String) : Except String Entry :=
  if fileContent = "apiVersion: v2\nname: foo\nversion: 1.0.0\n" then
    .ok { zeroEntry with ApiVersion := "v2", Name := "foo", Version := "1.0.0" }
  else if fileContent = "apiVersion: v1\nname: foo\nversion: 0.9.0\n" then
    .ok { zeroEntry with ApiVersion := "v1", Name := "foo", Version := "0.9.0" }
  else if fileContent = "apiVersion: v2\nname: bar\nversion: 2.0.0\n" then
    .ok { zeroEntry with ApiVersion := "v2", Name := "bar", Version := "2.0.0" }
  else if fileContent = "apiVersion: v2\nname: web\nurls:\n- https://example.com/web-0.1.0.tgz\nversion: 0.1.0\n" then
    .ok { zeroEntry with ApiVersion := "v2", Name := "web", Version := "0.1.0",
                         Urls := ["https://example.com/web-0.1.0.tgz"] }
  else
    .error "yaml: unmarshal errors"

/-- The objects of the sample bucket, by key. -/
def sampleGetObject (_bucket key : String) : Except String GetObjectOutput :=
  if key = "charts/foo-1.0.0.tgz" then
    .ok { Body := "foo-1.0.0", Metadata := [("chart-digest", "abcd")] }
  else if key = "charts/foo-0.9.0.tgz" then
    .ok { Body := "foo-0.9.0", Metadata := [("owner", "ci"), ("chart-digest", "0909")] }
  else if key = "charts/bar-2.0.0.tgz" then
    .ok { Body := "bar-2.0.0", Metadata := [("chart-digest", "b200")] }
  else if key = "charts/web-0.1.0.tgz" then
    .ok { Body := "web-0.1.0", Metadata := [("chart-digest", "e010")] }
  else if key = "charts/docs-0.1.0.tgz" then
    .ok { Body := "docs-0.1.0", Metadata := [] }
  else if key = "charts/nodigest-0.1.0.tgz" then
    .ok { Body := "foo-1.0.0", Metadata := [("owner", "ci")] }
  else if key = "charts/torn-0.1.0.tgz" then
    .ok { Body := "torn-0.1.0", Metadata := [("chart-digest", "7777")] }
  else
    .error "NoSuchKey"

/-- The archives of the sample bucket, by body. -/
def sampleGzipNewReader (body : String) : Except String (List TarNext) :=
  if body = "foo-1.0.0" then
    .ok [.member { Name := "foo/README.md" } (.ok "# foo\n"),
         .member { Name := "foo/Chart.yaml" } (.ok "apiVersion: v2\nname: foo\nversion: 1.0.0\n"),
         .member { Name := "foo/charts/bar/Chart.yaml" }
           (.ok "apiVersion: v2\nname: bar\nversion: 2.0.0\n")]
  else if body = "foo-0.9.0" then
    .ok [.member { Name := "foo/Chart.yaml" } (.ok "apiVersion: v1\nname: foo\nversion: 0.9.0\n")]
  else if body = "bar-2.0.0" then
    .ok [.member { Name := "bar/Chart.yaml" } (.ok "apiVersion: v2\nname: bar\nversion: 2.0.0\n")]
  else if body = "web-0.1.0" then
    .ok [.member { Name := "web/Chart.yaml" }
      (.ok "apiVersion: v2\nname: web\nurls:\n- https://example.com/web-0.1.0.tgz\nversion: 0.1.0\n")]
  else if body = "docs-0.1.0" then
    .ok [.member { Name := "docs/README.md" } (.ok "# docs\n"),
         .member { Name := "docs/values.yaml" } (.ok "replicas: 1\n")]
  else if body = "torn-0.1.0" then
    .ok [.member { Name := "torn/README.md" } (.ok "# torn\n"), .failure "unexpected EOF"]
  else
    .error "gzip: invalid header"

/-- A stand-in for the encoder: the schema version and the chart names. -/
def sampleEncode (_indent : Nat) (index : Index) : Except String String :=
  .ok ("apiVersion: " ++ index.ApiVersion ++ "\nentries: "
        ++ String.join (index.Entries.map (fun p => p.1 ++ " ")) ++ "\ngenerated: "
        ++ index.Generated ++ "\n")

/-- The sample bucket, with the given answer of the listing call. -/
def sampleEnv (listing : List Object) : Env :=
  { LoadDefaultConfig := fun _ => .ok ()
    ListObjects := fun _ _ => .ok listing
    GetObject := sampleGetObject
    gzipNewReader := sampleGzipNewReader
    yamlUnmarshal := sampleUnmarshal
    Format := fun t _ =>
      if t.unixNano = 1600000000000000000 then "2020-09-13T12:26:40Z"
      else "2023-11-14T22:13:20Z"
    Now := { unixNano := 1700000000000000000 }
    yamlEncode := sampleEncode
    PutObject := fun _ _ _ => .ok ()
    WriteFile := fun _ _ _ => .ok () }

/-- An element of a listing of the sample bucket. -/
def sampleObject (key : String) : Object :=
  { Key := key, LastModified := { unixNano := 1600000000000000000 } }

/-- The configuration of the sample runs: local output. -/
def sampleCfg : Config :=
  { s3BucketName := "charts-bucket", s3KeyPrefix := "charts/", awsProfile := "default",
    directUpload := false }

/-- A listing of the sample bucket in which every archive is valid; the two versions of
`foo` are listed newest first, with another chart and a non-archive in between. -/
def sampleListing : List Object :=
  [sampleObject "charts/foo-1.0.0.tgz", sampleObject "charts/bar-2.0.0.tgz",
   sampleObject "charts/index.yaml", sampleObject "charts/foo-0.9.0.tgz"]

/-- The loop variables after the listing loop on the sample listing. -/
def sampleVars : Vars :=
  (specEntries (sampleEnv sampleListing) sampleCfg sampleListing).foldl addEntry initVars

/-- The parsed manifest of `web-0.1.0.tgz`, which declares one URL. -/
def sampleWebManifest : Entry :=
  { zeroEntry with ApiVersion := "v2", Name := "web", Version := "0.1.0",
                   Urls := ["https://example.com/web-0.1.0.tgz"] }

/-- A listing of the sample bucket with an archive whose manifest declares a URL. -/
def sampleWebListing : List Object :=
  [sampleObject "charts/foo-1.0.0.tgz", sampleObject "charts/web-0.1.0.tgz"]

/-- The loop variables after the listing loop on `sampleWebListing`. -/
def sampleWebVars : Vars :=
  (specEntries (sampleEnv []) sampleCfg sampleWebListing).foldl addEntry initVars

set_option maxRecDepth 100000

/-! ## Strings: auxiliary facts -/

theorem length_eq_zero_iff (s : String) : s.length = 0 ↔ s = "" := by
  constructor
  · intro h
    have h1 : s.data = [] := List.length_eq_zero.mp h
    exact String.ext h1
  · rintro rfl; rfl

theorem hasSuffix_append_slash (d : String) : HasSuffix (d ++ "/") "/" = true := by
  have hd : (d ++ "/").data = d.data ++ ['/'] := rfl
  have hl : (d ++ "/").length = d.data.length + 1 := by
    show (d ++ "/").data.length = _
    rw [hd]; simp
  have h1 : ("/" : String).length = 1 := rfl
  have h2 : ("/" : String).data = ['/'] := rfl
  unfold HasSuffix
  rw [hl, h1, h2, hd]
  simp

theorem normalize_of_slash (d : String) (h : HasSuffix d "/" = true) : normalize d = d := by
  simp [normalize, h]

theorem normalize_of_not (d : String) (h0 : d ≠ "") (h : HasSuffix d "/" = false) :
    normalize d = d ++ "/" := by
  have : d.length ≠ 0 := fun hl => h0 ((length_eq_zero_iff d).mp hl)
  have : 0 < d.length := Nat.pos_of_ne_zero this
  simp [normalize, h, this]

theorem normalize_cases (d : String) :
    normalize d = "" ∨ HasSuffix (normalize d) "/" = true := by
  by_cases h0 : d = ""
  · left; subst h0; rfl
  · right
    cases h : HasSuffix d "/"
    · rw [normalize_of_not d h0 h]; exact hasSuffix_append_slash d
    · rw [normalize_of_slash d h]; exact h

theorem normalize_idem (d : String) : normalize (normalize d) = normalize d := by
  rcases normalize_cases d with h | h
  · rw [h]; rfl
  · exact normalize_of_slash _ h
/-! ## Maps: auxiliary facts -/

theorem mapGet_mapSet (m : List (String × List Entry)) (k k' : String) (x : List Entry) :
    mapGet (mapSet m k x) k' = if k = k' then x else mapGet m k' := by
  induction m with
  | nil => simp [mapSet, mapGet]
  | cons p rest ih =>
    obtain ⟨a, b⟩ := p
    by_cases h : a = k
    · subst h
      by_cases h' : a = k' <;> simp [mapSet, mapGet, h']
    · by_cases h' : a = k'
      · subst h'
        have : ¬ k = a := fun e => h e.symm
        simp [mapSet, mapGet, h, this]
      · simp [mapSet, mapGet, h, h', ih]

theorem keys_mapSet (m : List (String × List Entry)) (k : String) (x : List Entry) (a : String) :
    a ∈ (mapSet m k x).map Prod.fst ↔ a = k ∨ a ∈ m.map Prod.fst := by
  induction m with
  | nil => simp [mapSet]
  | cons p rest ih =>
    obtain ⟨b, y⟩ := p
    by_cases h : b = k
    · subst h; simp [mapSet]
    · simp only [mapSet, h, if_false, List.map_cons, List.mem_cons, ih]
      tauto

theorem nodup_mapSet (m : List (String × List Entry)) (k : String) (x : List Entry)
    (h : (m.map Prod.fst).Nodup) : ((mapSet m k x).map Prod.fst).Nodup := by
  induction m with
  | nil => simp [mapSet]
  | cons p rest ih =>
    obtain ⟨b, y⟩ := p
    simp only [List.map_cons, List.nodup_cons] at h
    by_cases hb : b = k
    · subst hb; simpa [mapSet] using h
    · simp only [mapSet, hb, if_false, List.map_cons, List.nodup_cons]
      refine ⟨?_, ih h.2⟩
      rw [keys_mapSet]
      rintro (e | e)
      · exact hb e
      · exact h.1 e

theorem mem_mapSet (m : List (String × List Entry)) (k : String) (x : List Entry)
    (p : String × List Entry) (hp : p ∈ mapSet m k x) : p = (k, x) ∨ p ∈ m := by
  induction m with
  | nil => simpa [mapSet] using hp
  | cons q rest ih =>
    obtain ⟨b, y⟩ := q
    by_cases hb : b = k
    · simp only [mapSet, hb, if_true, List.mem_cons] at hp
      rcases hp with e | e
      · exact Or.inl e
      · exact Or.inr (List.mem_cons_of_mem _ e)
    · simp only [mapSet, hb, if_false, List.mem_cons] at hp
      rcases hp with e | e
      · exact Or.inr (by rw [e]; exact List.mem_cons_self _ _)
      · rcases ih e with e' | e'
        · exact Or.inl e'
        · exact Or.inr (List.mem_cons_of_mem _ e')

theorem mem_of_mapGet (m : List (String × List Entry)) (k : String) (e : Entry)
    (he : e ∈ mapGet m k) : (k, mapGet m k) ∈ m := by
  induction m with
  | nil => simp [mapGet] at he
  | cons q rest ih =>
    obtain ⟨b, y⟩ := q
    by_cases hb : b = k
    · subst hb; simp [mapGet]
    · simp only [mapGet, hb, if_false] at he ⊢
      exact List.mem_cons_of_mem _ (ih he)

/-! ## The digest lookup: auxiliary facts -/

theorem digist_eq_lookup (m : List (String × String)) :
    digistFromMetadata m =
      match mapLookup m "chart-digest" with
      | some v => (v, none)
      | none => ("", some "No digist found in the metadata") := by
  induction m with
  | nil => rfl
  | cons p rest ih =>
    obtain ⟨a, b⟩ := p
    by_cases h : a = "chart-digest"
    · simp [digistFromMetadata, mapLookup, h]
    · simp [digistFromMetadata, mapLookup, h, ih]

theorem mapLookup_eq_some_iff (m : List (String × String)) (h : (m.map Prod.fst).Nodup)
    (k v : String) : mapLookup m k = some v ↔ (k, v) ∈ m := by
  induction m with
  | nil => simp [mapLookup]
  | cons p rest ih =>
    obtain ⟨a, b⟩ := p
    simp only [List.map_cons, List.nodup_cons] at h
    by_cases ha : a = k
    · subst ha
      simp only [mapLookup, if_true, Option.some.injEq, List.mem_cons, Prod.mk.injEq, true_and]
      constructor
      · intro e; exact Or.inl e.symm
      · rintro (e | e)
        · exact e.symm
        · exact absurd (List.mem_map.mpr ⟨(a, v), e, rfl⟩) h.1
    · simp only [mapLookup, ha, if_false, ih h.2, List.mem_cons, Prod.mk.injEq]
      constructor
      · intro e; exact Or.inr e
      · rintro (e | e)
        · exact absurd e.1.symm ha
        · exact e

theorem mapLookup_perm (m m' : List (String × String)) (h : (m.map Prod.fst).Nodup)
    (hp : m'.Perm m) (k : String) : mapLookup m' k = mapLookup m k := by
  have h' : (m'.map Prod.fst).Nodup := (hp.map Prod.fst).nodup_iff.mpr h
  cases e : mapLookup m k with
  | some v =>
    rw [mapLookup_eq_some_iff m' h']
    exact hp.mem_iff.mpr ((mapLookup_eq_some_iff m h k v).mp e)
  | none =>
    cases e' : mapLookup m' k with
    | none => rfl
    | some v =>
      have := (mapLookup_eq_some_iff m h k v).mpr (hp.mem_iff.mp ((mapLookup_eq_some_iff m' h' k v).mp e'))
      rw [e] at this; cases this
/-! ## The archive scan: auxiliary facts -/

theorem tarLoop_find (env : Env) (url : String) (o : Object) (object : GetObjectOutput)
    (tr : List TarNext) (v : Vars) :
    tarLoop env url o object tr v = tarLoop env url o object (tr.find? stopsScan).toList v := by
  induction tr with
  | nil => rfl
  | cons x rest ih =>
    cases x with
    | failure err => simp [List.find?, stopsScan, tarLoop]
    | member h body =>
      cases hs : HasSuffix h.Name "Chart.yaml"
      · simp only [List.find?, stopsScan, hs]
        rw [← ih]
        simp [tarLoop, hs]
      · simp [List.find?, stopsScan, hs, tarLoop]

theorem find_stopsScan_append (pre post : List TarNext) (x : TarNext)
    (hpre : ∀ y ∈ pre, stopsScan y = false) (hx : stopsScan x = true) :
    (pre ++ x :: post).find? stopsScan = some x := by
  induction pre with
  | nil => simp [List.find?, hx]
  | cons y rest ih =>
    have hy : stopsScan y = false := hpre y (List.mem_cons_self _ _)
    have hrest : ∀ z ∈ rest, stopsScan z = false := fun z hz => hpre z (List.mem_cons_of_mem _ hz)
    simp [List.find?, hy, ih hrest]

theorem find_stopsScan_none (tr : List TarNext) (h : ∀ y ∈ tr, stopsScan y = false) :
    tr.find? stopsScan = none := by
  induction tr with
  | nil => rfl
  | cons y rest ih =>
    have hy : stopsScan y = false := h y (List.mem_cons_self _ _)
    simp [List.find?, hy, ih (fun z hz => h z (List.mem_cons_of_mem _ hz))]

theorem tarLoop_step (env : Env) (url : String) (o : Object) (object : GetObjectOutput)
    (tr : List TarNext) (v v' : Vars) (h : tarLoop env url o object tr v = .ok v') :
    v' = v ∨ ∃ h content parsed digest,
      .member h (.ok content) ∈ tr ∧
      HasSuffix h.Name "Chart.yaml" = true ∧
      env.yamlUnmarshal content = .ok parsed ∧
      digistFromMetadata object.Metadata = (digest, none) ∧
      v' = addEntry v { parsed with
        Urls := parsed.Urls ++ [url]
        Created := env.Format o.LastModified RFC3339Nano
        Digest := digest } := by
  induction tr with
  | nil => left; simp [tarLoop] at h; exact h.symm
  | cons x rest ih =>
    cases x with
    | failure err => simp [tarLoop] at h
    | member hd body =>
      cases hs : HasSuffix hd.Name "Chart.yaml"
      · simp only [tarLoop, hs] at h
        rcases ih h with e | ⟨h1, c1, p1, d1, hm, hsuf, hy, hdg, hv⟩
        · exact Or.inl e
        · exact Or.inr ⟨h1, c1, p1, d1, List.mem_cons_of_mem _ hm, hsuf, hy, hdg, hv⟩
      · right
        cases body with
        | error err => simp [tarLoop, hs] at h
        | ok content =>
          cases hy : env.yamlUnmarshal content with
          | error err => simp [tarLoop, hs, hy] at h
          | ok parsed =>
            cases hd2 : (digistFromMetadata object.Metadata).2 with
            | some err => simp [tarLoop, hs, hy, hd2] at h
            | none =>
              simp only [tarLoop, hs, hy, hd2] at h
              refine ⟨hd, content, parsed, (digistFromMetadata object.Metadata).1,
                List.mem_cons_self _ _, hs, hy, ?_, ?_⟩
              · rw [← hd2]
              · simp at h; exact h.symm

/-! ## The listing loop: auxiliary facts -/

theorem mainLoop_skip (env : Env) (cfg : Config) (o : Object) (rest : List Object) (v : Vars)
    (h : HasSuffix o.Key ".tgz" = false) :
    mainLoop env cfg (o :: rest) v = mainLoop env cfg rest v := by
  simp [mainLoop, h]

theorem mainLoop_cons_ok (env : Env) (cfg : Config) (o : Object) (rest : List Object)
    (v v' : Vars) (object : GetObjectOutput) (tr : List TarNext)
    (h : HasSuffix o.Key ".tgz" = true)
    (hget : env.GetObject cfg.s3BucketName o.Key = .ok object)
    (hgz : env.gzipNewReader object.Body = .ok tr)
    (htar : tarLoop env ("s3://" ++ cfg.s3BucketName ++ "/" ++ o.Key) o object tr v = .ok v') :
    mainLoop env cfg (o :: rest) v =
      ([Effect.println ("Parsing information from " ++ ("s3://" ++ cfg.s3BucketName ++ "/" ++ o.Key)),
        Effect.getObject cfg.s3BucketName o.Key] ++ (mainLoop env cfg rest v').1,
       (mainLoop env cfg rest v').2) := by
  simp [mainLoop, h, hget, hgz, htar]

theorem mainLoop_cons_error (env : Env) (cfg : Config) (o : Object) (rest : List Object)
    (v : Vars) (object : GetObjectOutput) (tr : List TarNext) (e : Exit)
    (h : HasSuffix o.Key ".tgz" = true)
    (hget : env.GetObject cfg.s3BucketName o.Key = .ok object)
    (hgz : env.gzipNewReader object.Body = .ok tr)
    (htar : tarLoop env ("s3://" ++ cfg.s3BucketName ++ "/" ++ o.Key) o object tr v = .error e) :
    mainLoop env cfg (o :: rest) v =
      ([Effect.println ("Parsing information from " ++ ("s3://" ++ cfg.s3BucketName ++ "/" ++ o.Key)),
        Effect.getObject cfg.s3BucketName o.Key], .error e) := by
  simp [mainLoop, h, hget, hgz, htar]

/-- One turn of the listing loop, by cases: the object is skipped, the turn ends the
run, or the archive scan succeeds and the loop goes on. -/
theorem mainLoop_cons_cases (env : Env) (cfg : Config) (o : Object) (rest : List Object)
    (v : Vars) :
    (HasSuffix o.Key ".tgz" = false ∧ mainLoop env cfg (o :: rest) v = mainLoop env cfg rest v) ∨
    (HasSuffix o.Key ".tgz" = true ∧ ∃ e,
      mainLoop env cfg (o :: rest) v =
        ([Effect.println ("Parsing information from " ++ ("s3://" ++ cfg.s3BucketName ++ "/" ++ o.Key)),
          Effect.getObject cfg.s3BucketName o.Key], .error e)) ∨
    (HasSuffix o.Key ".tgz" = true ∧ ∃ object tr v',
      env.GetObject cfg.s3BucketName o.Key = .ok object ∧
      env.gzipNewReader object.Body = .ok tr ∧
      tarLoop env ("s3://" ++ cfg.s3BucketName ++ "/" ++ o.Key) o object tr v = .ok v' ∧
      mainLoop env cfg (o :: rest) v =
        ([Effect.println ("Parsing information from " ++ ("s3://" ++ cfg.s3BucketName ++ "/" ++ o.Key)),
          Effect.getObject cfg.s3BucketName o.Key] ++ (mainLoop env cfg rest v').1,
         (mainLoop env cfg rest v').2)) := by
  cases h : HasSuffix o.Key ".tgz"
  · exact Or.inl ⟨rfl, mainLoop_skip env cfg o rest v h⟩
  · right
    cases hget : env.GetObject cfg.s3BucketName o.Key with
    | error err =>
      left; exact ⟨rfl, .fatal ("Get object error: " ++ err), by simp [mainLoop, h, hget]⟩
    | ok object =>
      cases hgz : env.gzipNewReader object.Body with
      | error err =>
        left
        exact ⟨rfl, .fatal ("Reading Gzip file: " ++ err), by simp [mainLoop, h, hget, hgz]⟩
      | ok tr =>
        cases htar : tarLoop env ("s3://" ++ cfg.s3BucketName ++ "/" ++ o.Key) o object tr v with
        | error e => left; exact ⟨rfl, e, mainLoop_cons_error env cfg o rest v object tr e h hget hgz htar⟩
        | ok v' =>
          right
          exact ⟨rfl, object, tr, v', rfl, hgz, htar,
            mainLoop_cons_ok env cfg o rest v v' object tr h hget hgz htar⟩

theorem mainLoop_filter (env : Env) (cfg : Config) (objs : List Object) (v : Vars) :
    mainLoop env cfg (archives objs) v = mainLoop env cfg objs v := by
  induction objs generalizing v with
  | nil => rfl
  | cons o rest ih =>
    cases h : HasSuffix o.Key ".tgz"
    · rw [mainLoop_skip env cfg o rest v h]
      simp only [archives, List.filter, h]
      exact ih v
    · have hf : archives (o :: rest) = o :: archives rest := by simp [archives, List.filter, h]
      rw [hf]
      simp only [mainLoop, h]
      simp only [ih]

theorem mainLoop_append (env : Env) (cfg : Config) (xs ys : List Object) (v : Vars) :
    mainLoop env cfg (xs ++ ys) v =
      match (mainLoop env cfg xs v).2 with
      | .error e => ((mainLoop env cfg xs v).1, .error e)
      | .ok v' => ((mainLoop env cfg xs v).1 ++ (mainLoop env cfg ys v').1,
                    (mainLoop env cfg ys v').2) := by
  induction xs generalizing v with
  | nil => simp [mainLoop]
  | cons o rest ih =>
    cases h : HasSuffix o.Key ".tgz"
    · simp [mainLoop, h, ih]
    · cases hget : env.GetObject cfg.s3BucketName o.Key with
      | error err => simp [mainLoop, h, hget]
      | ok object =>
        cases hgz : env.gzipNewReader object.Body with
        | error err => simp [mainLoop, h, hget, hgz]
        | ok tr =>
          cases htar : tarLoop env ("s3://" ++ cfg.s3BucketName ++ "/" ++ o.Key) o object tr v with
          | error e => simp [mainLoop, h, hget, hgz, htar]
          | ok v' =>
            rw [List.cons_append,
              mainLoop_cons_ok env cfg o (rest ++ ys) v v' object tr h hget hgz htar,
              mainLoop_cons_ok env cfg o rest v v' object tr h hget hgz htar, ih v']
            cases (mainLoop env cfg rest v').2 <;> simp

/-- No turn of the listing loop writes or uploads anything, and only keys that end in
`.tgz` are fetched. -/
theorem mainLoop_effects (env : Env) (cfg : Config) (objs : List Object) (v : Vars)
    (eff : Effect) (h : eff ∈ (mainLoop env cfg objs v).1) :
    (∃ o ∈ objs, HasSuffix o.Key ".tgz" = true ∧
      (eff = Effect.println ("Parsing information from " ++ ("s3://" ++ cfg.s3BucketName ++ "/" ++ o.Key))
       ∨ eff = Effect.getObject cfg.s3BucketName o.Key)) := by
  induction objs generalizing v with
  | nil => simp [mainLoop] at h
  | cons o rest ih =>
    have lift : (∃ o' ∈ rest, HasSuffix o'.Key ".tgz" = true ∧
      (eff = Effect.println ("Parsing information from " ++ ("s3://" ++ cfg.s3BucketName ++ "/" ++ o'.Key))
       ∨ eff = Effect.getObject cfg.s3BucketName o'.Key)) →
      (∃ o' ∈ o :: rest, HasSuffix o'.Key ".tgz" = true ∧
      (eff = Effect.println ("Parsing information from " ++ ("s3://" ++ cfg.s3BucketName ++ "/" ++ o'.Key))
       ∨ eff = Effect.getObject cfg.s3BucketName o'.Key)) := by
      rintro ⟨o', ho', r⟩
      exact ⟨o', List.mem_cons_of_mem _ ho', r⟩
    have here : ∀ ht : HasSuffix o.Key ".tgz" = true,
        eff ∈ [Effect.println ("Parsing information from " ++ ("s3://" ++ cfg.s3BucketName ++ "/" ++ o.Key)),
          Effect.getObject cfg.s3BucketName o.Key] →
        (∃ o' ∈ o :: rest, HasSuffix o'.Key ".tgz" = true ∧
        (eff = Effect.println ("Parsing information from " ++ ("s3://" ++ cfg.s3BucketName ++ "/" ++ o'.Key))
         ∨ eff = Effect.getObject cfg.s3BucketName o'.Key)) := by
      intro ht hm
      refine ⟨o, List.mem_cons_self _ _, ht, ?_⟩
      simpa using hm
    rcases mainLoop_cons_cases env cfg o rest v with ⟨_, e⟩ | ⟨ht, e, he⟩ | ⟨ht, object, tr, v', _, _, _, he⟩
    · rw [e] at h; exact lift (ih v h)
    · rw [he] at h; exact here ht h
    · rw [he] at h
      rcases List.mem_append.mp h with h1 | h1
      · exact here ht h1
      · exact lift (ih v' h1)

theorem mainLoop_invariant (env : Env) (cfg : Config) (P : Vars → Prop) (objs : List Object)
    (step : ∀ o ∈ objs, HasSuffix o.Key ".tgz" = true → ∀ object tr v v',
      env.GetObject cfg.s3BucketName o.Key = .ok object →
      env.gzipNewReader object.Body = .ok tr →
      tarLoop env ("s3://" ++ cfg.s3BucketName ++ "/" ++ o.Key) o object tr v = .ok v' →
      P v → P v')
    (v v' : Vars) (hv : P v) (h : (mainLoop env cfg objs v).2 = .ok v') : P v' := by
  induction objs generalizing v with
  | nil => simp [mainLoop] at h; rw [← h]; exact hv
  | cons o rest ih =>
    have step' : ∀ o' ∈ rest, HasSuffix o'.Key ".tgz" = true → ∀ object tr v v',
        env.GetObject cfg.s3BucketName o'.Key = .ok object →
        env.gzipNewReader object.Body = .ok tr →
        tarLoop env ("s3://" ++ cfg.s3BucketName ++ "/" ++ o'.Key) o' object tr v = .ok v' →
        P v → P v' := fun o' ho' => step o' (List.mem_cons_of_mem _ ho')
    rcases mainLoop_cons_cases env cfg o rest v with ⟨_, e⟩ | ⟨_, e, he⟩ | ⟨ht, object, tr, v1, hget, hgz, htar, he⟩
    · rw [e] at h; exact ih step' v hv h
    · rw [he] at h; cases h
    · rw [he] at h
      exact ih step' v1 (step o (List.mem_cons_self _ _) ht object tr v v1 hget hgz htar hv) h

/-! ## Accumulating entries: auxiliary facts -/

theorem mapGet_foldl_addEntry (es : List Entry) (v : Vars) (k : String) :
    mapGet (es.foldl addEntry v).index.Entries k =
      mapGet v.index.Entries k ++ es.filter (fun e => e.Name = k) := by
  induction es generalizing v with
  | nil => simp
  | cons e rest ih =>
    rw [List.foldl_cons, ih]
    simp only [addEntry, mapGet_mapSet]
    by_cases h : e.Name = k
    · simp [List.filter, h]
    · simp [List.filter, h]

theorem apiVersions_foldl_addEntry (es : List Entry) (v : Vars) :
    (es.foldl addEntry v).apiVersions = v.apiVersions ++ es.map (fun e => e.ApiVersion) := by
  induction es generalizing v with
  | nil => simp
  | cons e rest ih =>
    rw [List.foldl_cons, ih]
    simp [addEntry]

/-- The two invariants of the entries map: the keys are pairwise distinct, and a slice
holds only entries whose name is its key. -/
theorem addEntry_keyed (v : Vars) (e : Entry)
    (h : (v.index.Entries.map Prod.fst).Nodup ∧
      ∀ p ∈ v.index.Entries, ∀ x ∈ p.2, x.Name = p.1) :
    ((addEntry v e).index.Entries.map Prod.fst).Nodup ∧
      ∀ p ∈ (addEntry v e).index.Entries, ∀ x ∈ p.2, x.Name = p.1 := by
  refine ⟨nodup_mapSet _ _ _ h.1, ?_⟩
  intro p hp x hx
  rcases mem_mapSet _ _ _ p hp with e1 | e1
  · subst e1
    rcases List.mem_append.mp hx with h1 | h1
    · exact h.2 _ (mem_of_mapGet _ _ x h1) x h1
    · simp at h1; rw [h1]
  · exact h.2 p e1 x hx

theorem mainLoop_keyed (env : Env) (cfg : Config) (objs : List Object) (v : Vars)
    (h : (mainLoop env cfg objs initVars).2 = .ok v) :
    (v.index.Entries.map Prod.fst).Nodup ∧ ∀ p ∈ v.index.Entries, ∀ x ∈ p.2, x.Name = p.1 := by
  refine mainLoop_invariant env cfg
    (fun v => (v.index.Entries.map Prod.fst).Nodup ∧
      ∀ p ∈ v.index.Entries, ∀ x ∈ p.2, x.Name = p.1) objs ?_ initVars v ?_ h
  · intro o _ _ object tr v1 v2 _ _ htar hv
    rcases tarLoop_step env _ o object tr v1 v2 htar with e | ⟨_, _, _, _, _, _, _, _, e⟩
    · rw [e]; exact hv
    · rw [e]; exact addEntry_keyed v1 _ hv
  · simp [initVars]

/-! ## Valid archives: auxiliary facts -/

theorem tarLoop_of_archiveEntry (env : Env) (cfg : Config) (o : Object) (e : Entry)
    (h : specArchiveEntry env cfg o = some e) (v : Vars) :
    ∃ object tr, env.GetObject cfg.s3BucketName o.Key = .ok object ∧
      env.gzipNewReader object.Body = .ok tr ∧
      tarLoop env ("s3://" ++ cfg.s3BucketName ++ "/" ++ o.Key) o object tr v
        = .ok (addEntry v e) := by
  unfold specArchiveEntry at h
  cases hget : env.GetObject cfg.s3BucketName o.Key with
  | error err => simp [hget] at h
  | ok object =>
    cases hgz : env.gzipNewReader object.Body with
    | error err => simp [hget, hgz] at h
    | ok tr =>
      refine ⟨object, tr, rfl, hgz, ?_⟩
      simp only [hget, hgz] at h
      rw [tarLoop_find]
      cases hf : tr.find? stopsScan with
      | none => simp [hf] at h
      | some x =>
        cases x with
        | failure err => simp [hf] at h
        | member hd body =>
          have hs : HasSuffix hd.Name "Chart.yaml" = true := by
            have := List.find?_some hf
            simpa [stopsScan] using this
          cases body with
          | error err => simp [hf] at h
          | ok manifest =>
            cases hy : env.yamlUnmarshal manifest with
            | error err => simp [hf, hy] at h
            | ok parsed =>
              cases hl : mapLookup object.Metadata "chart-digest" with
              | none => simp [hf, hy, hl] at h
              | some digest =>
                simp only [hf, hy, hl, Option.some.injEq] at h
                simp [tarLoop, hs, hy, digist_eq_lookup, hl, ← h]

theorem mainLoop_valid (env : Env) (cfg : Config) (objs : List Object)
    (hvalid : ∀ o ∈ objs, HasSuffix o.Key ".tgz" = true → (specArchiveEntry env cfg o).isSome = true)
    (v : Vars) :
    (mainLoop env cfg objs v).2 = .ok ((specEntries env cfg objs).foldl addEntry v) := by
  induction objs generalizing v with
  | nil => rfl
  | cons o rest ih =>
    have hrest : ∀ o' ∈ rest, HasSuffix o'.Key ".tgz" = true →
        (specArchiveEntry env cfg o').isSome = true :=
      fun o' ho' => hvalid o' (List.mem_cons_of_mem _ ho')
    cases ht : HasSuffix o.Key ".tgz"
    · rw [mainLoop_skip env cfg o rest v ht, ih hrest]
      simp [specEntries, archives, List.filter, ht]
    · have hsome := hvalid o (List.mem_cons_self _ _) ht
      obtain ⟨e, he⟩ := Option.isSome_iff_exists.mp hsome
      obtain ⟨object, tr, hget, hgz, htar⟩ := tarLoop_of_archiveEntry env cfg o e he v
      rw [mainLoop_cons_ok env cfg o rest v _ object tr ht hget hgz htar]
      simp only
      rw [ih hrest]
      simp [specEntries, archives, List.filter, ht, he]

/-! ## Version selection: auxiliary facts -/

theorem sortStrings_perm (xs : List String) : (sortStrings xs).Perm xs :=
  List.perm_insertionSort _ xs

theorem sortStrings_sorted (xs : List String) :
    (sortStrings xs).Sorted (fun a b : String => a ≤ b) := by
  have e : (fun a b : String => a.data ≤ b.data) = (fun a b : String => a ≤ b) := by
    funext a b
    exact propext String.le_iff_toList_le.symm
  have hs : (List.insertionSort (fun a b : String => a ≤ b) xs).Sorted (fun a b : String => a ≤ b) :=
    List.sorted_insertionSort (fun a b : String => a ≤ b) xs
  unfold sortStrings
  convert hs using 2

theorem lastElem_nil : lastElem [] = .error (.panic "runtime error: index out of range [-1]") := by
  decide

theorem lastElem_of_ne_nil (xs : List String) (h : xs ≠ []) :
    lastElem xs = .ok (xs.getLast h) := by
  have hl : 0 < xs.length := List.length_pos.mpr h
  have hc : 0 ≤ (xs.length : Int) - 1 ∧ (xs.length : Int) - 1 < xs.length := by omega
  unfold lastElem
  simp only [hc, and_self, dite_true]
  congr 1
  rw [List.getLast_eq_getElem]
  simp only [List.get_eq_getElem]
  congr 1
  omega

theorem le_getLast_of_sorted (l : List String) (hs : l.Sorted (fun a b : String => a ≤ b))
    (h : l ≠ []) (x : String) (hx : x ∈ l) : x ≤ l.getLast h := by
  induction l with
  | nil => exact absurd rfl h
  | cons a rest ih =>
    cases rest with
    | nil =>
      simp at hx
      simp [hx]
    | cons b rest' =>
      have hs' := List.sorted_cons.mp hs
      rw [List.getLast_cons (List.cons_ne_nil b rest')]
      rcases List.mem_cons.mp hx with e | e
      · rw [e]
        exact hs'.1 _ (List.getLast_mem _)
      · exact ih hs'.2 (List.cons_ne_nil b rest') e

theorem sortStrings_ne_nil (xs : List String) (h : xs ≠ []) : sortStrings xs ≠ [] := by
  intro e
  have := (sortStrings_perm xs).length_eq
  rw [e] at this
  exact h (List.length_eq_zero.mp this.symm)

theorem assemble_of_ne_nil (env : Env) (v : Vars) (h : v.apiVersions ≠ []) :
    ∃ a, assemble env v = .ok (Index.mk a v.index.Entries (env.Format env.Now RFC3339Nano)) ∧
      a ∈ v.apiVersions ∧ ∀ s ∈ v.apiVersions, s ≤ a := by
  have hne := sortStrings_ne_nil v.apiVersions h
  refine ⟨(sortStrings v.apiVersions).getLast hne, ?_, ?_, ?_⟩
  · simp [assemble, lastElem_of_ne_nil _ hne]
  · exact (sortStrings_perm v.apiVersions).mem_iff.mp (List.getLast_mem hne)
  · intro s hs
    exact le_getLast_of_sorted _ (sortStrings_sorted _) hne s
      ((sortStrings_perm v.apiVersions).mem_iff.mpr hs)

theorem assemble_of_nil (env : Env) (v : Vars) (h : v.apiVersions = []) :
    assemble env v = .error (.panic "runtime error: index out of range [-1]") := by
  have : sortStrings v.apiVersions = [] := by rw [h]; rfl
  simp [assemble, this, lastElem_nil]

/-! ## The whole run: auxiliary facts -/

theorem main_eq (env : Env) (cfg : Config) (objs : List Object)
    (hc : env.LoadDefaultConfig cfg.awsProfile = .ok ())
    (hl : env.ListObjects cfg.s3BucketName cfg.s3KeyPrefix = .ok objs) :
    main env cfg =
      match (mainLoop env cfg objs initVars).2 with
      | .error e =>
        ([Effect.println ("Starting the restoration of s3://" ++ cfg.s3BucketName ++ "/"
            ++ cfg.s3KeyPrefix ++ "index.yaml"),
          Effect.listObjects cfg.s3BucketName cfg.s3KeyPrefix]
          ++ (mainLoop env cfg objs initVars).1, .error e)
      | .ok v =>
        ([Effect.println ("Starting the restoration of s3://" ++ cfg.s3BucketName ++ "/"
            ++ cfg.s3KeyPrefix ++ "index.yaml"),
          Effect.listObjects cfg.s3BucketName cfg.s3KeyPrefix]
          ++ (mainLoop env cfg objs initVars).1 ++ (finish env cfg v).1, (finish env cfg v).2) := by
  simp only [main, hc, hl]
  cases (mainLoop env cfg objs initVars).2 <;> simp

theorem mainLoop_no_output (env : Env) (cfg : Config) (objs : List Object) (v : Vars)
    (eff : Effect) (h : eff ∈ (mainLoop env cfg objs v).1) : isOutput eff = false := by
  obtain ⟨o, _, _, e | e⟩ := mainLoop_effects env cfg objs v eff h <;> rw [e] <;> rfl

/-- When the listing loop ends the run, the run ends with the same error and nothing
is written or uploaded. -/
theorem main_of_loop_error (env : Env) (cfg : Config) (objs : List Object) (e : Exit)
    (hc : env.LoadDefaultConfig cfg.awsProfile = .ok ())
    (hl : env.ListObjects cfg.s3BucketName cfg.s3KeyPrefix = .ok objs)
    (h : (mainLoop env cfg objs initVars).2 = .error e) :
    (main env cfg).2 = .error e ∧ ∀ eff ∈ (main env cfg).1, isOutput eff = false := by
  rw [main_eq env cfg objs hc hl, h]
  refine ⟨rfl, ?_⟩
  intro eff heff
  simp only [List.mem_append, List.mem_cons, List.mem_singleton, List.not_mem_nil, or_false] at heff
  rcases heff with (e1 | e1) | e1
  · rw [e1]; rfl
  · rw [e1]; rfl
  · exact mainLoop_no_output env cfg objs initVars eff e1

theorem mem_flatMap_mapSet (m : List (String × List Entry)) (k : String) (e x : Entry) :
    x ∈ (mapSet m k (mapGet m k ++ [e])).flatMap Prod.snd ↔ x ∈ m.flatMap Prod.snd ∨ x = e := by
  induction m with
  | nil => simp [mapSet, mapGet]
  | cons p rest ih =>
    obtain ⟨a, b⟩ := p
    by_cases h : a = k
    · simp only [mapSet, mapGet, h, if_true, List.flatMap_cons, List.mem_append,
        List.mem_singleton]
      tauto
    · simp only [mapSet, mapGet, h, if_false, List.flatMap_cons, List.mem_append, ih]
      tauto

theorem mem_allEntries_addEntry (v : Vars) (e x : Entry) :
    x ∈ allEntries (addEntry v e).index ↔ x ∈ allEntries v.index ∨ x = e :=
  mem_flatMap_mapSet v.index.Entries e.Name e x

/-- After a successful listing loop the recorded schema versions are those of the
entries stored in the index. -/
theorem mainLoop_apiVersions (env : Env) (cfg : Config) (objs : List Object) (v : Vars)
    (h : (mainLoop env cfg objs initVars).2 = .ok v) (s : String) :
    s ∈ v.apiVersions ↔ ∃ e ∈ allEntries v.index, e.ApiVersion = s := by
  refine mainLoop_invariant env cfg
    (fun v => ∀ s, s ∈ v.apiVersions ↔ ∃ e ∈ allEntries v.index, e.ApiVersion = s)
    objs ?_ initVars v ?_ h s
  · intro o _ _ object tr v1 v2 _ _ htar hv s
    rcases tarLoop_step env _ o object tr v1 v2 htar with e | ⟨_, _, _, _, _, _, _, _, e⟩
    · rw [e]; exact hv s
    · rw [e]
      constructor
      · intro hs
        simp only [addEntry, List.mem_append, List.mem_singleton] at hs
        rcases hs with h1 | h1
        · obtain ⟨x, hx, hxs⟩ := (hv s).mp h1
          exact ⟨x, (mem_allEntries_addEntry _ _ _).mpr (Or.inl hx), hxs⟩
        · exact ⟨_, (mem_allEntries_addEntry _ _ _).mpr (Or.inr rfl), h1.symm⟩
      · rintro ⟨x, hx, hxs⟩
        rcases (mem_allEntries_addEntry _ _ _).mp hx with h1 | h1
        · have := (hv s).mpr ⟨x, h1, hxs⟩
          simp [addEntry, this]
        · subst h1
          simp [addEntry, ← hxs]
  · intro s
    simp [initVars, allEntries]

theorem mapLookup_isSome_iff (m : List (String × String)) (k : String) :
    (mapLookup m k).isSome = true ↔ k ∈ m.map Prod.fst := by
  induction m with
  | nil => simp [mapLookup]
  | cons p rest ih =>
    obtain ⟨a, b⟩ := p
    by_cases h : a = k
    · simp [mapLookup, h]
    · have h' : ¬ k = a := fun e => h e.symm
      simp only [mapLookup, h, if_false, ih, List.map_cons, List.mem_cons, h', false_or]

theorem tarLoop_error_of_no_digest (env : Env) (url : String) (o : Object)
    (object : GetObjectOutput) (tr : List TarNext) (v : Vars)
    (hm : ∃ x ∈ tr, ∃ h body, x = TarNext.member h body ∧ HasSuffix h.Name "Chart.yaml" = true)
    (hd : mapLookup object.Metadata "chart-digest" = none) :
    ∃ e, tarLoop env url o object tr v = .error e := by
  induction tr with
  | nil => obtain ⟨x, hx, _⟩ := hm; cases hx
  | cons y rest ih =>
    cases y with
    | failure err => exact ⟨_, rfl⟩
    | member hd' body =>
      cases hs : HasSuffix hd'.Name "Chart.yaml"
      · have hm' : ∃ x ∈ rest, ∃ h body, x = TarNext.member h body ∧
            HasSuffix h.Name "Chart.yaml" = true := by
          obtain ⟨x, hx, h, b, e, hh⟩ := hm
          rcases List.mem_cons.mp hx with e1 | e1
          · rw [e1] at e
            cases e
            rw [hs] at hh; cases hh
          · exact ⟨x, e1, h, b, e, hh⟩
        obtain ⟨e, he⟩ := ih hm'
        exact ⟨e, by simp [tarLoop, hs, he]⟩
      · cases body with
        | error err =>
          exact ⟨.fatal ("Error reading chart.yaml: " ++ err), by simp [tarLoop, hs]⟩
        | ok content =>
          cases hy : env.yamlUnmarshal content with
          | error err => exact ⟨.fatal ("Error parsing chart.yaml: " ++ err), by simp [tarLoop, hs, hy]⟩
          | ok parsed =>
            exact ⟨.fatal ("Error parsing metadata: " ++ "No digist found in the metadata"),
              by simp [tarLoop, hs, hy, digist_eq_lookup, hd]⟩

theorem mainLoop_error_of_no_digest (env : Env) (cfg : Config) (objs : List Object)
    (o : Object) (object : GetObjectOutput) (tr : List TarNext)
    (ho : o ∈ objs) (ht : HasSuffix o.Key ".tgz" = true)
    (hget : env.GetObject cfg.s3BucketName o.Key = .ok object)
    (hgz : env.gzipNewReader object.Body = .ok tr)
    (hm : ∃ x ∈ tr, ∃ h body, x = TarNext.member h body ∧ HasSuffix h.Name "Chart.yaml" = true)
    (hd : mapLookup object.Metadata "chart-digest" = none) (v : Vars) :
    ∃ e, (mainLoop env cfg objs v).2 = .error e := by
  induction objs generalizing v with
  | nil => cases ho
  | cons o' rest ih =>
    rcases mainLoop_cons_cases env cfg o' rest v with ⟨hs, e⟩ | ⟨_, e, he⟩ | ⟨_, object', tr', v', hget', hgz', htar', he⟩
    · rw [e]
      rcases List.mem_cons.mp ho with e1 | e1
      · rw [← e1, ht] at hs; cases hs
      · exact ih e1 v
    · exact ⟨e, by rw [he]⟩
    · rw [he]
      rcases List.mem_cons.mp ho with e1 | e1
      · exfalso
        subst e1
        rw [hget] at hget'
        cases hget'
        rw [hgz] at hgz'
        cases hgz'
        obtain ⟨e, he⟩ := tarLoop_error_of_no_digest env
          ("s3://" ++ cfg.s3BucketName ++ "/" ++ o.Key) o object tr v hm hd
        rw [he] at htar'
        cases htar'
      · exact ih e1 v'

theorem tarLoop_of_no_manifest (env : Env) (url : String) (o : Object)
    (object : GetObjectOutput) (tr : List TarNext) (v : Vars)
    (h : ∀ x ∈ tr, stopsScan x = false) : tarLoop env url o object tr v = .ok v := by
  rw [tarLoop_find, find_stopsScan_none tr h]
  rfl

theorem tarLoop_of_failure (env : Env) (url : String) (o : Object)
    (object : GetObjectOutput) (pre post : List TarNext) (err : String) (v : Vars)
    (h : ∀ x ∈ pre, stopsScan x = false) :
    tarLoop env url o object (pre ++ .failure err :: post) v
      = .error (.fatal ("Reading Tar file: " ++ err)) := by
  rw [tarLoop_find, find_stopsScan_append pre post (.failure err) h rfl]
  rfl

theorem println_parsing_ne (url : String) :
    Effect.println ("Parsing information from " ++ url)
      ≠ Effect.println "Generating new index.yaml" := by
  intro h
  injection h with h
  have := congrArg String.data h
  simp [String.data_append] at this

theorem println_starting_ne (a b c d : String) :
    Effect.println ("Starting the restoration of s3://" ++ a ++ b ++ c ++ d)
      ≠ Effect.println "Generating new index.yaml" := by
  intro h
  injection h with h
  have := congrArg String.data h
  simp [String.data_append] at this

theorem finish_of_nil (env : Env) (cfg : Config) (v : Vars) (h : v.apiVersions = []) :
    finish env cfg v = ([], .error (.panic "runtime error: index out of range [-1]")) := by
  simp [finish, assemble_of_nil env v h]

theorem tarLoop_listing_irrelevant (env : Env) (f : String → String → Except String (List Object))
    (url : String) (o : Object) (object : GetObjectOutput) (tr : List TarNext) (v : Vars) :
    tarLoop { env with ListObjects := f } url o object tr v = tarLoop env url o object tr v := by
  induction tr with
  | nil => rfl
  | cons x rest ih =>
    cases x with
    | failure err => rfl
    | member h body =>
      cases hs : HasSuffix h.Name "Chart.yaml"
      · simp only [tarLoop, hs]
        exact ih
      · simp [tarLoop, hs]

theorem mainLoop_listing_irrelevant (env : Env)
    (f : String → String → Except String (List Object)) (cfg : Config) (objs : List Object)
    (v : Vars) :
    mainLoop { env with ListObjects := f } cfg objs v = mainLoop env cfg objs v := by
  induction objs generalizing v with
  | nil => rfl
  | cons o rest ih =>
    simp only [mainLoop, tarLoop_listing_irrelevant, ih]

theorem finish_listing_irrelevant (env : Env)
    (f : String → String → Except String (List Object)) (cfg : Config) (v : Vars) :
    finish { env with ListObjects := f } cfg v = finish env cfg v := rfl

theorem finish_putObject (env : Env) (cfg : Config) (v : Vars) (bucket key body : String)
    (h : Effect.putObject bucket key body ∈ (finish env cfg v).1) :
    bucket = cfg.s3BucketName ∧ key = cfg.s3KeyPrefix ++ "index.yaml" := by
  unfold finish at h
  cases ha : assemble env v with
  | error e => simp [ha] at h
  | ok index =>
    cases hy : env.yamlEncode 2 index with
    | error err => simp [ha, hy] at h
    | ok data =>
      cases hu : cfg.directUpload
      · cases hw : env.WriteFile "index.yaml" data 0o664 <;> simp [ha, hy, hu, hw] at h
      · cases hp : env.PutObject cfg.s3BucketName (cfg.s3KeyPrefix ++ "index.yaml") data <;>
          simp [ha, hy, hu, hp] at h <;> exact ⟨h.1, h.2.1⟩

theorem main_putObject (env : Env) (cfg : Config) (bucket key body : String)
    (h : Effect.putObject bucket key body ∈ (main env cfg).1) :
    bucket = cfg.s3BucketName ∧ key = cfg.s3KeyPrefix ++ "index.yaml" := by
  unfold main at h
  cases hc : env.LoadDefaultConfig cfg.awsProfile with
  | error err => simp [hc] at h
  | ok u =>
    cases hl : env.ListObjects cfg.s3BucketName cfg.s3KeyPrefix with
    | error err => simp [hc, hl] at h
    | ok objs =>
      simp only [hc, hl] at h
      cases hr : (mainLoop env cfg objs initVars).2 with
      | error e =>
        simp only [hr, List.mem_append] at h
        rcases h with h | h
        · simp at h
        · have := mainLoop_no_output env cfg objs initVars _ h
          simp [isOutput] at this
      | ok v =>
        simp only [hr, List.mem_append] at h
        rcases h with (h | h) | h
        · simp at h
        · have := mainLoop_no_output env cfg objs initVars _ h
          simp [isOutput] at this
        · exact finish_putObject env cfg v bucket key body h

theorem run_putObject (env : Env) (flags : Flags) (bucket key body : String)
    (h : Effect.putObject bucket key body ∈ (run env flags).1) :
    bucket = flags.bucket ∧ key = normalize flags.directory ++ "index.yaml" := by
  unfold run init at h
  by_cases hf : (flags.bucket.length = 0 || flags.profile.length = 0) = true
  · simp [hf] at h
  · simp only [hf, if_false, List.nil_append] at h
    exact main_putObject env _ bucket key body h

/-! ## The index after a successful loop: auxiliary facts -/

/-- A successful scan either met no manifest and no read error and changed nothing, or
appended the entry built from the first manifest of the archive. -/
theorem tarLoop_ok_cases (env : Env) (url : String) (o : Object) (object : GetObjectOutput)
    (tr : List TarNext) (v v' : Vars) (h : tarLoop env url o object tr v = .ok v') :
    (tr.find? stopsScan = none ∧ v' = v) ∨
    ∃ hd content parsed digest,
      tr.find? stopsScan = some (.member hd (.ok content)) ∧
      env.yamlUnmarshal content = .ok parsed ∧
      mapLookup object.Metadata "chart-digest" = some digest ∧
      v' = addEntry v { parsed with
        Urls := parsed.Urls ++ [url]
        Created := env.Format o.LastModified RFC3339Nano
        Digest := digest } := by
  rw [tarLoop_find] at h
  cases hf : tr.find? stopsScan with
  | none =>
    left
    rw [hf] at h
    simp [tarLoop] at h
    exact ⟨rfl, h.symm⟩
  | some x =>
    rw [hf] at h
    cases x with
    | failure err => simp [tarLoop] at h
    | member hd body =>
      have hs : HasSuffix hd.Name "Chart.yaml" = true := by
        have := List.find?_some hf
        simpa [stopsScan] using this
      cases body with
      | error err => simp [tarLoop, hs] at h
      | ok content =>
        cases hy : env.yamlUnmarshal content with
        | error err => simp [tarLoop, hs, hy] at h
        | ok parsed =>
          cases hl : mapLookup object.Metadata "chart-digest" with
          | none => simp [tarLoop, hs, hy, digist_eq_lookup, hl] at h
          | some digest =>
            right
            simp [tarLoop, hs, hy, digist_eq_lookup, hl] at h
            exact ⟨hd, content, parsed, digest, rfl, hy, rfl, h.symm⟩

/-- A successful listing loop ends in the state obtained by appending, in listing order,
the entries that the specification builds from the archives. -/
theorem mainLoop_ok_eq (env : Env) (cfg : Config) (objs : List Object) (v v' : Vars)
    (h : (mainLoop env cfg objs v).2 = .ok v') :
    v' = (specEntries env cfg objs).foldl addEntry v := by
  induction objs generalizing v with
  | nil => simp [mainLoop] at h; rw [← h]; rfl
  | cons o rest ih =>
    rcases mainLoop_cons_cases env cfg o rest v with ⟨hs, e⟩ | ⟨_, e, he⟩ | ⟨ht, object, tr, v1, hget, hgz, htar, he⟩
    · rw [e] at h
      rw [ih v h]
      simp [specEntries, archives, List.filter, hs]
    · rw [he] at h; cases h
    · rw [he] at h
      rw [ih v1 h]
      have hspec : (specEntries env cfg (o :: rest)).foldl addEntry v
          = (specEntries env cfg rest).foldl addEntry v1 := by
        rcases tarLoop_ok_cases env _ o object tr v v1 htar with ⟨hf, e1⟩ | ⟨hd, content, parsed, digest, hf, hy, hl, e1⟩
        · have hnone : specArchiveEntry env cfg o = none := by
            simp [specArchiveEntry, hget, hgz, hf]
          rw [e1]
          simp [specEntries, archives, List.filter, ht, hnone]
        · have hsome : specArchiveEntry env cfg o = some { parsed with
              Urls := parsed.Urls ++ ["s3://" ++ cfg.s3BucketName ++ "/" ++ o.Key]
              Created := env.Format o.LastModified RFC3339Nano
              Digest := digest } := by
            simp [specArchiveEntry, hget, hgz, hf, hy, hl]
          rw [e1]
          simp [specEntries, archives, List.filter, ht, hsome]
      rw [hspec]

theorem mem_allEntries_foldl (es : List Entry) (v : Vars) (x : Entry) :
    x ∈ allEntries (es.foldl addEntry v).index ↔ x ∈ allEntries v.index ∨ x ∈ es := by
  induction es generalizing v with
  | nil => simp
  | cons e rest ih =>
    rw [List.foldl_cons, ih, mem_allEntries_addEntry, List.mem_cons]
    tauto

/-- What `specArchiveEntry` returns, spelled out. -/
theorem specArchiveEntry_eq_some (env : Env) (cfg : Config) (o : Object) (e : Entry)
    (h : specArchiveEntry env cfg o = some e) :
    ∃ object tr hd content parsed digest,
      env.GetObject cfg.s3BucketName o.Key = .ok object ∧
      env.gzipNewReader object.Body = .ok tr ∧
      tr.find? stopsScan = some (.member hd (.ok content)) ∧
      env.yamlUnmarshal content = .ok parsed ∧
      mapLookup object.Metadata "chart-digest" = some digest ∧
      e = { parsed with
        Urls := parsed.Urls ++ ["s3://" ++ cfg.s3BucketName ++ "/" ++ o.Key]
        Created := env.Format o.LastModified RFC3339Nano
        Digest := digest } := by
  unfold specArchiveEntry at h
  cases hget : env.GetObject cfg.s3BucketName o.Key with
  | error err => simp [hget] at h
  | ok object =>
    cases hgz : env.gzipNewReader object.Body with
    | error err => simp [hget, hgz] at h
    | ok tr =>
      simp only [hget, hgz] at h
      cases hf : tr.find? stopsScan with
      | none => simp [hf] at h
      | some x =>
        cases x with
        | failure err => simp [hf] at h
        | member hd body =>
          cases body with
          | error err => simp [hf] at h
          | ok content =>
            cases hy : env.yamlUnmarshal content with
            | error err => simp [hf, hy] at h
            | ok parsed =>
              cases hl : mapLookup object.Metadata "chart-digest" with
              | none => simp [hf, hy, hl] at h
              | some digest =>
                simp only [hf, hy, hl, Option.some.injEq] at h
                exact ⟨object, tr, hd, content, parsed, digest, rfl, hgz, hf, hy, hl, h.symm⟩

theorem perm_flatMap_mapSet (m : List (String × List Entry)) (k : String) (e : Entry) :
    ((mapSet m k (mapGet m k ++ [e])).flatMap Prod.snd).Perm (m.flatMap Prod.snd ++ [e]) := by
  induction m with
  | nil => simp [mapSet, mapGet]
  | cons p rest ih =>
    obtain ⟨a, b⟩ := p
    by_cases h : a = k
    · simp only [mapSet, mapGet, h, if_true, List.flatMap_cons, List.append_assoc]
      exact List.Perm.append_left b List.perm_append_comm
    · simp only [mapSet, mapGet, h, if_false, List.flatMap_cons, List.append_assoc]
      exact List.Perm.append_left b ih

theorem perm_allEntries_foldl (es : List Entry) (v : Vars) :
    (allEntries (es.foldl addEntry v).index).Perm (allEntries v.index ++ es) := by
  induction es generalizing v with
  | nil => simp
  | cons e rest ih =>
    rw [List.foldl_cons]
    refine (ih (addEntry v e)).trans ?_
    have h1 : (allEntries (addEntry v e).index).Perm (allEntries v.index ++ [e]) :=
      perm_flatMap_mapSet v.index.Entries e.Name e
    have h2 := List.Perm.append_right rest h1
    simpa [List.append_assoc] using h2

/-! ## Grouping by chart name -/

/-- C1: when every `.tgz` archive of the listing has a valid manifest and a
`chart-digest` metadata field, the listing loop succeeds, every archive yields one
entry, and for every chart name `k` the slice `index.Entries[k]` is exactly the
sequence of the entries built from the archives whose manifest name is `k`, in
listing order; the keys of the map are distinct and a slice holds only entries
whose name is its key; `apiVersions` lists the schema versions of the same entries. -/
theorem entries_grouped_in_listing_order (env : Env) (cfg : Config) (objs : List Object)
    (hvalid : ∀ o ∈ objs, HasSuffix o.Key ".tgz" = true →
      (specArchiveEntry env cfg o).isSome = true) :
    ∃ v, (mainLoop env cfg objs initVars).2 = .ok v ∧
      (∀ k, mapGet v.index.Entries k
        = (specEntries env cfg objs).filter (fun e => e.Name = k)) ∧
      (specEntries env cfg objs).map some = (archives objs).map (specArchiveEntry env cfg) ∧
      (v.index.Entries.map Prod.fst).Nodup ∧
      (∀ p ∈ v.index.Entries, ∀ e ∈ p.2, e.Name = p.1) ∧
      v.apiVersions = (specEntries env cfg objs).map (fun e => e.ApiVersion) := by
  have hloop := mainLoop_valid env cfg objs hvalid initVars
  refine ⟨_, hloop, ?_, ?_, (mainLoop_keyed env cfg objs _ hloop).1,
    (mainLoop_keyed env cfg objs _ hloop).2, ?_⟩
  · intro k
    rw [mapGet_foldl_addEntry]
    simp [initVars, mapGet]
  rotate_left
  · rw [apiVersions_foldl_addEntry]
    simp [initVars]
  · have hall : ∀ o ∈ archives objs, (specArchiveEntry env cfg o).isSome = true := by
      intro o ho
      have := List.mem_filter.mp ho
      exact hvalid o this.1 (by simpa using this.2)
    unfold specEntries
    generalize archives objs = l at hall
    induction l with
    | nil => rfl
    | cons o rest ih =>
      obtain ⟨e, he⟩ := Option.isSome_iff_exists.mp (hall o (List.mem_cons_self _ _))
      have ih' := ih (fun o' ho' => hall o' (List.mem_cons_of_mem _ ho'))
      simp [List.filterMap, he, ih']

/-- The sample listing is valid, and its two `foo` entries are stored newest first, as
listed. -/
theorem entries_grouped_in_listing_order_witness :
    (∀ o ∈ sampleListing, HasSuffix o.Key ".tgz" = true →
      (specArchiveEntry (sampleEnv sampleListing) sampleCfg o).isSome = true) ∧
    ∃ v, (mainLoop (sampleEnv sampleListing) sampleCfg sampleListing initVars).2 = .ok v ∧
      (∀ k, mapGet v.index.Entries k
        = (specEntries (sampleEnv sampleListing) sampleCfg sampleListing).filter
            (fun e => e.Name = k)) ∧
      (specEntries (sampleEnv sampleListing) sampleCfg sampleListing).map some
        = (archives sampleListing).map (specArchiveEntry (sampleEnv sampleListing) sampleCfg) ∧
      (v.index.Entries.map Prod.fst).Nodup ∧
      (∀ p ∈ v.index.Entries, ∀ e ∈ p.2, e.Name = p.1) ∧
      v.apiVersions
        = (specEntries (sampleEnv sampleListing) sampleCfg sampleListing).map
            (fun e => e.ApiVersion) :=
  ⟨by decide, entries_grouped_in_listing_order (sampleEnv sampleListing) sampleCfg sampleListing
    (by decide)⟩

/-! ## Version selection -/

/-- C2: after a listing loop that collected at least one entry, version selection
succeeds and `index.ApiVersion` is the greatest of the collected `apiVersion` strings
in the lexicographic order of strings: it is one of them, and each of them is less
than or equal to it; the same holds over the entries stored in the index.  For the
collected versions `v2` and `v10`, in either order, the selected one is `v2`. -/
theorem apiVersion_is_lexicographic_max (env : Env) (cfg : Config) (objs : List Object)
    (v : Vars) (hloop : (mainLoop env cfg objs initVars).2 = .ok v)
    (hne : v.apiVersions ≠ []) :
    (∃ index, assemble env v = .ok index ∧ index.Entries = v.index.Entries ∧
      index.ApiVersion ∈ v.apiVersions ∧ (∀ s ∈ v.apiVersions, s ≤ index.ApiVersion) ∧
      (∃ e ∈ allEntries index, e.ApiVersion = index.ApiVersion) ∧
      (∀ e ∈ allEntries index, e.ApiVersion ≤ index.ApiVersion)) ∧
    (∀ index0 : Index, ∃ index,
      assemble env { index := index0, apiVersions := ["v2", "v10"] } = .ok index ∧
      index.ApiVersion = "v2") ∧
    (∀ index0 : Index, ∃ index,
      assemble env { index := index0, apiVersions := ["v10", "v2"] } = .ok index ∧
      index.ApiVersion = "v2") := by
  refine ⟨?_, ?_, ?_⟩
  · obtain ⟨a, ha, hmem, hmax⟩ := assemble_of_ne_nil env v hne
    refine ⟨_, ha, rfl, hmem, hmax, ?_, ?_⟩
    · obtain ⟨e, he, hea⟩ := (mainLoop_apiVersions env cfg objs v hloop a).mp hmem
      exact ⟨e, he, hea⟩
    · intro e he
      exact hmax _ ((mainLoop_apiVersions env cfg objs v hloop e.ApiVersion).mpr ⟨e, he, rfl⟩)
  · intro index0
    have h1 : lastElem (sortStrings ["v2", "v10"]) = .ok "v2" := by decide
    exact ⟨Index.mk "v2" index0.Entries (env.Format env.Now RFC3339Nano),
      by simp only [assemble, h1], rfl⟩
  · intro index0
    have h1 : lastElem (sortStrings ["v10", "v2"]) = .ok "v2" := by decide
    exact ⟨Index.mk "v2" index0.Entries (env.Format env.Now RFC3339Nano),
      by simp only [assemble, h1], rfl⟩

/-- The sample listing collects the versions `v2`, `v2` and `v1`; the index gets the
greatest of them. -/
theorem apiVersion_is_lexicographic_max_witness :
    (mainLoop (sampleEnv sampleListing) sampleCfg sampleListing initVars).2 = .ok sampleVars ∧
    sampleVars.apiVersions ≠ [] ∧
    ∃ index, assemble (sampleEnv sampleListing) sampleVars = .ok index ∧
      index.Entries = sampleVars.index.Entries ∧
      index.ApiVersion ∈ sampleVars.apiVersions ∧
      (∀ s ∈ sampleVars.apiVersions, s ≤ index.ApiVersion) ∧
      (∃ e ∈ allEntries index, e.ApiVersion = index.ApiVersion) ∧
      (∀ e ∈ allEntries index, e.ApiVersion ≤ index.ApiVersion) :=
  ⟨by decide, by decide,
    (apiVersion_is_lexicographic_max (sampleEnv sampleListing) sampleCfg sampleListing
      sampleVars (by decide) (by decide)).1⟩

/-! ## A missing digest -/

/-- C3, as stated, fails: the listing below contains the archive `docs-0.1.0.tgz`,
whose metadata has no `chart-digest` field, and yet the run ends normally and writes
`index.yaml`.  That archive has no manifest, so its digest is never asked for. -/
theorem missing_digest_counterexample :
    (∃ o ∈ [sampleObject "charts/docs-0.1.0.tgz", sampleObject "charts/foo-1.0.0.tgz"],
      HasSuffix o.Key ".tgz" = true ∧
      ∃ object, sampleGetObject "charts-bucket" o.Key = .ok object ∧
        mapLookup object.Metadata "chart-digest" = none) ∧
    (main (sampleEnv [sampleObject "charts/docs-0.1.0.tgz", sampleObject "charts/foo-1.0.0.tgz"])
      sampleCfg).2 = .ok () ∧
    Effect.writeFile "index.yaml" "apiVersion: v2\nentries: foo \ngenerated: 2023-11-14T22:13:20Z\n"
        0o664
      ∈ (main (sampleEnv [sampleObject "charts/docs-0.1.0.tgz",
          sampleObject "charts/foo-1.0.0.tgz"]) sampleCfg).1 := by
  refine ⟨⟨sampleObject "charts/docs-0.1.0.tgz", by decide, by decide, _, rfl, by decide⟩,
    by decide, by decide⟩

/-- C3, amended: when the listing contains a `.tgz` archive that has a member whose name
ends in `Chart.yaml` and whose object metadata lacks the `chart-digest` field, the run
ends with an error, and neither the local write of `index.yaml` nor the upload is
reached. -/
theorem missing_digest_is_fatal (env : Env) (cfg : Config) (objs : List Object)
    (o : Object) (object : GetObjectOutput) (tr : List TarNext)
    (hc : env.LoadDefaultConfig cfg.awsProfile = .ok ())
    (hl : env.ListObjects cfg.s3BucketName cfg.s3KeyPrefix = .ok objs)
    (ho : o ∈ objs) (ht : HasSuffix o.Key ".tgz" = true)
    (hget : env.GetObject cfg.s3BucketName o.Key = .ok object)
    (hgz : env.gzipNewReader object.Body = .ok tr)
    (hm : ∃ x ∈ tr, ∃ h body, x = TarNext.member h body ∧ HasSuffix h.Name "Chart.yaml" = true)
    (hd : mapLookup object.Metadata "chart-digest" = none) :
    (∃ e, (main env cfg).2 = .error e) ∧ ∀ eff ∈ (main env cfg).1, isOutput eff = false := by
  obtain ⟨e, he⟩ := mainLoop_error_of_no_digest env cfg objs o object tr ho ht hget hgz hm hd
    initVars
  exact ⟨⟨e, (main_of_loop_error env cfg objs e hc hl he).1⟩,
    (main_of_loop_error env cfg objs e hc hl he).2⟩

/-- The archive `nodigest-0.1.0.tgz` of the sample bucket has a manifest and no digest: a
run over a listing that holds it, after a valid archive, is fatal and writes
nothing. -/
theorem missing_digest_is_fatal_witness :
    (∃ e, (main (sampleEnv [sampleObject "charts/foo-1.0.0.tgz",
        sampleObject "charts/nodigest-0.1.0.tgz"]) sampleCfg).2 = .error e) ∧
    ∀ eff ∈ (main (sampleEnv [sampleObject "charts/foo-1.0.0.tgz",
        sampleObject "charts/nodigest-0.1.0.tgz"]) sampleCfg).1, isOutput eff = false :=
  missing_digest_is_fatal
    (sampleEnv [sampleObject "charts/foo-1.0.0.tgz", sampleObject "charts/nodigest-0.1.0.tgz"])
    sampleCfg [sampleObject "charts/foo-1.0.0.tgz", sampleObject "charts/nodigest-0.1.0.tgz"]
    (sampleObject "charts/nodigest-0.1.0.tgz")
    { Body := "foo-1.0.0", Metadata := [("owner", "ci")] }
    [.member { Name := "foo/README.md" } (.ok "# foo\n"),
     .member { Name := "foo/Chart.yaml" } (.ok "apiVersion: v2\nname: foo\nversion: 1.0.0\n"),
     .member { Name := "foo/charts/bar/Chart.yaml" }
       (.ok "apiVersion: v2\nname: bar\nversion: 2.0.0\n")]
    rfl rfl (by decide) (by decide) (by decide) (by decide)
    ⟨_, List.mem_cons_of_mem _ (List.mem_cons_self _ _), _, _, rfl, by decide⟩ (by decide)

/-! ## The digest lookup -/

/-- C4: for a metadata map `m` (pairwise distinct keys) visited in any iteration order,
`digistFromMetadata` succeeds exactly when `m` has the key `chart-digest`; on success it
returns `m["chart-digest"]` and a nil error, on failure the empty string and a non-nil
error; the result is the same for every iteration order.  Keys that differ from
`chart-digest` in case or by surrounding blanks do not count. -/
theorem digistFromMetadata_spec (m iteration : List (String × String))
    (hm : (m.map Prod.fst).Nodup) (hperm : iteration.Perm m) :
    ((digistFromMetadata iteration).2 = none ↔ "chart-digest" ∈ m.map Prod.fst) ∧
    (∀ value, mapLookup m "chart-digest" = some value →
      digistFromMetadata iteration = (value, none)) ∧
    ("chart-digest" ∉ m.map Prod.fst →
      (digistFromMetadata iteration).1 = "" ∧ (digistFromMetadata iteration).2 ≠ none) ∧
    digistFromMetadata iteration = digistFromMetadata m ∧
    (digistFromMetadata
      [("Chart-Digest", "a"), (" chart-digest", "b"), ("chart-digest ", "c")]).2 ≠ none := by
  have hl := mapLookup_perm m iteration hm hperm "chart-digest"
  have hi := digist_eq_lookup iteration
  rw [hl] at hi
  have hk := mapLookup_isSome_iff m "chart-digest"
  refine ⟨?_, ?_, ?_, ?_, by decide⟩
  · rw [← hk, hi]
    cases mapLookup m "chart-digest" <;> simp
  · intro value hv
    rw [hi, hv]
  · intro hno
    rw [← hk] at hno
    rw [hi]
    cases h : mapLookup m "chart-digest" with
    | none => simp
    | some value => rw [h] at hno; simp at hno
  · rw [hi, digist_eq_lookup m]

/-- A metadata map with three keys, visited in rotated order: the digest is found. -/
theorem digistFromMetadata_spec_witness :
    (([("owner", "ci"), ("chart-digest", "abcd"), ("stage", "prod")] : List (String × String)).map
      Prod.fst).Nodup ∧
    digistFromMetadata [("stage", "prod"), ("owner", "ci"), ("chart-digest", "abcd")]
      = ("abcd", none) :=
  ⟨by decide,
    (digistFromMetadata_spec [("owner", "ci"), ("chart-digest", "abcd"), ("stage", "prod")]
      [("stage", "prod"), ("owner", "ci"), ("chart-digest", "abcd")] (by decide)
      (by decide)).2.1 "abcd" (by decide)⟩

/-! ## The archive scan -/

/-- C5: in an archive whose members before the first one named `…Chart.yaml` are read
without error, the outcome of the scan is that of the archive made of that first
member alone: on success its content, parsed and completed with the URL, the
timestamp and the digest, is the one entry appended.  The answers of the tar reader
after that member are never consulted, so replacing them by any others leaves the
outcome unchanged.  A scan of any archive appends at most one entry. -/
theorem first_manifest_wins (env : Env) (url : String) (o : Object) (object : GetObjectOutput)
    (pre post : List TarNext) (h : Header) (body : Except String String) (v : Vars)
    (hpre : ∀ x ∈ pre, stopsScan x = false)
    (hh : HasSuffix h.Name "Chart.yaml" = true) :
    tarLoop env url o object (pre ++ .member h body :: post) v
      = tarLoop env url o object [.member h body] v ∧
    (∀ post', tarLoop env url o object (pre ++ .member h body :: post') v
      = tarLoop env url o object (pre ++ .member h body :: post) v) ∧
    (∀ v', tarLoop env url o object (pre ++ .member h body :: post) v = .ok v' →
      ∃ content parsed, body = .ok content ∧ env.yamlUnmarshal content = .ok parsed ∧
        v' = addEntry v { parsed with
          Urls := parsed.Urls ++ [url]
          Created := env.Format o.LastModified RFC3339Nano
          Digest := (digistFromMetadata object.Metadata).1 }) ∧
    (∀ tr v', tarLoop env url o object tr v = .ok v' → v' = v ∨ ∃ e, v' = addEntry v e) := by
  have hx : stopsScan (.member h body) = true := by simpa [stopsScan] using hh
  have key : ∀ post', tarLoop env url o object (pre ++ .member h body :: post') v
      = tarLoop env url o object [.member h body] v := by
    intro post'
    rw [tarLoop_find, find_stopsScan_append pre post' _ hpre hx]
    rfl
  refine ⟨key post, fun post' => by rw [key post', key post], ?_, ?_⟩
  · intro v' hv'
    rw [key post] at hv'
    cases body with
    | error err => simp [tarLoop, hh] at hv'
    | ok content =>
      cases hy : env.yamlUnmarshal content with
      | error err => simp [tarLoop, hh, hy] at hv'
      | ok parsed =>
        cases hd : (digistFromMetadata object.Metadata).2 with
        | some err => simp [tarLoop, hh, hy, hd] at hv'
        | none =>
          simp only [tarLoop, hh, hy, hd, if_true, Except.ok.injEq] at hv'
          exact ⟨content, parsed, rfl, hy, hv'.symm⟩
  · intro tr v' hv'
    rcases tarLoop_step env url o object tr v v' hv' with e | ⟨_, _, _, _, _, _, _, _, e⟩
    · exact Or.inl e
    · exact Or.inr ⟨_, e⟩

/-- The archive `foo-1.0.0.tgz` of the sample bucket holds a second manifest, of a
sub-chart, after the first one: the scan gives the same result without it. -/
theorem first_manifest_wins_witness :
    (∀ x ∈ [TarNext.member { Name := "foo/README.md" } (.ok "# foo\n")], stopsScan x = false) ∧
    HasSuffix "foo/Chart.yaml" "Chart.yaml" = true ∧
    tarLoop (sampleEnv []) "s3://charts-bucket/charts/foo-1.0.0.tgz"
        (sampleObject "charts/foo-1.0.0.tgz")
        { Body := "foo-1.0.0", Metadata := [("chart-digest", "abcd")] }
        ([.member { Name := "foo/README.md" } (.ok "# foo\n")]
          ++ .member { Name := "foo/Chart.yaml" }
              (.ok "apiVersion: v2\nname: foo\nversion: 1.0.0\n")
          :: [.member { Name := "foo/charts/bar/Chart.yaml" }
              (.ok "apiVersion: v2\nname: bar\nversion: 2.0.0\n")]) initVars
      = tarLoop (sampleEnv []) "s3://charts-bucket/charts/foo-1.0.0.tgz"
        (sampleObject "charts/foo-1.0.0.tgz")
        { Body := "foo-1.0.0", Metadata := [("chart-digest", "abcd")] }
        [.member { Name := "foo/Chart.yaml" }
          (.ok "apiVersion: v2\nname: foo\nversion: 1.0.0\n")] initVars :=
  ⟨by decide, by decide,
    (first_manifest_wins (sampleEnv []) "s3://charts-bucket/charts/foo-1.0.0.tgz"
      (sampleObject "charts/foo-1.0.0.tgz")
      { Body := "foo-1.0.0", Metadata := [("chart-digest", "abcd")] }
      [.member { Name := "foo/README.md" } (.ok "# foo\n")]
      [.member { Name := "foo/charts/bar/Chart.yaml" }
        (.ok "apiVersion: v2\nname: bar\nversion: 2.0.0\n")]
      { Name := "foo/Chart.yaml" } (.ok "apiVersion: v2\nname: foo\nversion: 1.0.0\n")
      initVars (by decide) (by decide)).1⟩

/-- C6: an archive that decompresses and is read to its end without error and has no
member named `…Chart.yaml` raises no error and leaves `index` and `apiVersions` as
they were: the loop goes on with the next object in the same state.  A tar read error
met before any such member ends that turn of the loop with a fatal error, and with it
the run, without any output. -/
theorem archive_without_manifest_is_skipped (env : Env) (cfg : Config) (o : Object)
    (rest : List Object) (v : Vars) (object : GetObjectOutput) (tr : List TarNext)
    (ht : HasSuffix o.Key ".tgz" = true)
    (hget : env.GetObject cfg.s3BucketName o.Key = .ok object)
    (hgz : env.gzipNewReader object.Body = .ok tr) :
    ((∀ x ∈ tr, stopsScan x = false) →
      tarLoop env ("s3://" ++ cfg.s3BucketName ++ "/" ++ o.Key) o object tr v = .ok v ∧
      (mainLoop env cfg (o :: rest) v).2 = (mainLoop env cfg rest v).2 ∧
      (mainLoop env cfg [o] v).2 = .ok v) ∧
    (∀ pre err post, tr = pre ++ .failure err :: post → (∀ x ∈ pre, stopsScan x = false) →
      (mainLoop env cfg (o :: rest) v).2 = .error (.fatal ("Reading Tar file: " ++ err)) ∧
      ∀ before, env.LoadDefaultConfig cfg.awsProfile = .ok () →
        env.ListObjects cfg.s3BucketName cfg.s3KeyPrefix = .ok (before ++ o :: rest) →
        (mainLoop env cfg before initVars).2 = .ok v →
        (main env cfg).2 = .error (.fatal ("Reading Tar file: " ++ err)) ∧
        ∀ eff ∈ (main env cfg).1, isOutput eff = false) := by
  constructor
  · intro hno
    have htar := tarLoop_of_no_manifest env ("s3://" ++ cfg.s3BucketName ++ "/" ++ o.Key) o
      object tr v hno
    refine ⟨htar, ?_, ?_⟩
    · rw [mainLoop_cons_ok env cfg o rest v v object tr ht hget hgz htar]
    · rw [mainLoop_cons_ok env cfg o [] v v object tr ht hget hgz htar]
      rfl
  · intro pre err post htr hpre
    have htar := tarLoop_of_failure env ("s3://" ++ cfg.s3BucketName ++ "/" ++ o.Key) o
      object pre post err v hpre
    rw [← htr] at htar
    have hturn := mainLoop_cons_error env cfg o rest v object tr _ ht hget hgz htar
    refine ⟨by rw [hturn], ?_⟩
    intro before hc hl hbefore
    have happ := mainLoop_append env cfg before (o :: rest) initVars
    rw [hbefore] at happ
    simp only at happ
    have herr : (mainLoop env cfg (before ++ o :: rest) initVars).2
        = .error (.fatal ("Reading Tar file: " ++ err)) := by
      rw [happ, hturn]
    exact main_of_loop_error env cfg _ _ hc hl herr

/-- The archive `docs-0.1.0.tgz` of the sample bucket has two members and no manifest:
the loop skips it in the state reached after the sample listing.  The archive
`torn-0.1.0.tgz` breaks off after its first member: the loop ends there. -/
theorem archive_without_manifest_is_skipped_witness :
    (HasSuffix (sampleObject "charts/docs-0.1.0.tgz").Key ".tgz" = true ∧
     (∀ x ∈ [TarNext.member { Name := "docs/README.md" } (.ok "# docs\n"),
             TarNext.member { Name := "docs/values.yaml" } (.ok "replicas: 1\n")],
       stopsScan x = false) ∧
     (mainLoop (sampleEnv []) sampleCfg [sampleObject "charts/docs-0.1.0.tgz"] sampleVars).2
       = .ok sampleVars) ∧
    (mainLoop (sampleEnv []) sampleCfg
        [sampleObject "charts/torn-0.1.0.tgz", sampleObject "charts/foo-1.0.0.tgz"] sampleVars).2
      = .error (.fatal ("Reading Tar file: " ++ "unexpected EOF")) :=
  ⟨⟨by decide, by decide,
    ((archive_without_manifest_is_skipped (sampleEnv []) sampleCfg
      (sampleObject "charts/docs-0.1.0.tgz") [] sampleVars
      { Body := "docs-0.1.0", Metadata := [] }
      [.member { Name := "docs/README.md" } (.ok "# docs\n"),
       .member { Name := "docs/values.yaml" } (.ok "replicas: 1\n")]
      (by decide) (by decide) (by decide)).1 (by decide)).2.2⟩,
   ((archive_without_manifest_is_skipped (sampleEnv []) sampleCfg
      (sampleObject "charts/torn-0.1.0.tgz") [sampleObject "charts/foo-1.0.0.tgz"] sampleVars
      { Body := "torn-0.1.0", Metadata := [("chart-digest", "7777")] }
      [.member { Name := "torn/README.md" } (.ok "# torn\n"), .failure "unexpected EOF"]
      (by decide) (by decide) (by decide)).2
      [.member { Name := "torn/README.md" } (.ok "# torn\n")] "unexpected EOF" [] rfl
      (by decide)).1⟩

/-! ## The empty result -/

/-- C7: after a listing loop that collected no entry (as when the listing has no `.tgz`
object), `apiVersions[len(apiVersions)-1]` is out of range: the run panics before the
encoder is called, and nothing is written or uploaded.  After a loop that collected at
least one entry the index is in range and version selection succeeds. -/
theorem empty_version_list_panics (env : Env) (cfg : Config) (objs : List Object) (v : Vars)
    (hc : env.LoadDefaultConfig cfg.awsProfile = .ok ())
    (hl : env.ListObjects cfg.s3BucketName cfg.s3KeyPrefix = .ok objs)
    (hloop : (mainLoop env cfg objs initVars).2 = .ok v) :
    (v.apiVersions = [] →
      lastElem (sortStrings v.apiVersions)
        = .error (.panic "runtime error: index out of range [-1]") ∧
      finish env cfg v = ([], .error (.panic "runtime error: index out of range [-1]")) ∧
      (main env cfg).2 = .error (.panic "runtime error: index out of range [-1]") ∧
      ∀ eff ∈ (main env cfg).1,
        isOutput eff = false ∧ eff ≠ Effect.println "Generating new index.yaml") ∧
    (v.apiVersions ≠ [] →
      ∃ a index, lastElem (sortStrings v.apiVersions) = .ok a ∧
        assemble env v = .ok index ∧ index.ApiVersion = a) ∧
    (archives objs = [] → v.apiVersions = []) := by
  refine ⟨?_, ?_, ?_⟩
  · intro hnil
    have hfin := finish_of_nil env cfg v hnil
    have hmain := main_eq env cfg objs hc hl
    rw [hloop] at hmain
    simp only [hfin, List.append_nil] at hmain
    refine ⟨by rw [hnil]; rfl, hfin, by rw [hmain], ?_⟩
    intro eff heff
    rw [hmain] at heff
    simp only [List.mem_append, List.mem_cons, List.mem_singleton, List.not_mem_nil,
      or_false] at heff
    rcases heff with (e | e) | e
    · rw [e]; exact ⟨rfl, println_starting_ne _ _ _ _⟩
    · rw [e]; exact ⟨rfl, by simp⟩
    · refine ⟨mainLoop_no_output env cfg objs initVars eff e, ?_⟩
      obtain ⟨o, _, _, e1 | e1⟩ := mainLoop_effects env cfg objs initVars eff e
      · rw [e1]; exact println_parsing_ne _
      · rw [e1]; simp
  · intro hne
    have hs := sortStrings_ne_nil v.apiVersions hne
    exact ⟨(sortStrings v.apiVersions).getLast hs,
      Index.mk ((sortStrings v.apiVersions).getLast hs) v.index.Entries
        (env.Format env.Now RFC3339Nano),
      lastElem_of_ne_nil _ hs, by simp [assemble, lastElem_of_ne_nil _ hs], rfl⟩
  · intro harch
    have h := mainLoop_filter env cfg objs initVars
    rw [harch] at h
    rw [← h] at hloop
    simp only [mainLoop, Except.ok.injEq] at hloop
    rw [← hloop]
    rfl

/-- A listing without any archive: the run panics and writes nothing.  The sample
listing: version selection succeeds. -/
theorem empty_version_list_panics_witness :
    ((mainLoop (sampleEnv [sampleObject "charts/index.yaml"]) sampleCfg
        [sampleObject "charts/index.yaml"] initVars).2 = .ok initVars ∧
     initVars.apiVersions = [] ∧
     (main (sampleEnv [sampleObject "charts/index.yaml"]) sampleCfg).2
       = .error (.panic "runtime error: index out of range [-1]")) ∧
    (sampleVars.apiVersions ≠ [] ∧
     ∃ a index, lastElem (sortStrings sampleVars.apiVersions) = .ok a ∧
       assemble (sampleEnv sampleListing) sampleVars = .ok index ∧ index.ApiVersion = a) :=
  ⟨⟨by decide, by decide,
    ((empty_version_list_panics (sampleEnv [sampleObject "charts/index.yaml"]) sampleCfg
      [sampleObject "charts/index.yaml"] initVars rfl rfl (by decide)).1 (by decide)).2.2.1⟩,
   ⟨by decide,
    (empty_version_list_panics (sampleEnv sampleListing) sampleCfg sampleListing sampleVars
      rfl rfl (by decide)).2.1 (by decide)⟩⟩

/-! ## The archive filter -/

/-- C8: the listing loop behaves on a listing exactly as on its sub-list of the objects
whose key ends in `.tgz`: same effects, same error or same final `index` and
`apiVersions`.  Only keys that end in `.tgz` are fetched.  Hence a run whose listing call
answers with the non-archives removed is the same run. -/
theorem only_archives_contribute (env : Env) (cfg : Config) (objs : List Object) (v : Vars) :
    mainLoop env cfg objs v = mainLoop env cfg (archives objs) v ∧
    (∀ bucket key, Effect.getObject bucket key ∈ (mainLoop env cfg objs v).1 →
      HasSuffix key ".tgz" = true ∧ ∃ o ∈ objs, o.Key = key) ∧
    (∀ o ∈ objs, HasSuffix o.Key ".tgz" = false →
      ∀ rest v', mainLoop env cfg (o :: rest) v' = mainLoop env cfg rest v') ∧
    main { env with ListObjects := fun bucket keyPrefix =>
            (env.ListObjects bucket keyPrefix).map archives } cfg
      = main env cfg := by
  refine ⟨(mainLoop_filter env cfg objs v).symm, ?_, ?_, ?_⟩
  · intro bucket key h
    obtain ⟨o, ho, ht, e | e⟩ := mainLoop_effects env cfg objs v _ h
    · cases e
    · injection e with e1 e2
      rw [e2]
      exact ⟨ht, o, ho, rfl⟩
  · intro o _ hs rest v'
    exact mainLoop_skip env cfg o rest v' hs
  · simp only [main]
    cases env.LoadDefaultConfig cfg.awsProfile with
    | error err => rfl
    | ok u =>
      cases env.ListObjects cfg.s3BucketName cfg.s3KeyPrefix with
      | error err => rfl
      | ok l =>
        simp only [Except.map, mainLoop_listing_irrelevant, finish_listing_irrelevant,
          mainLoop_filter]

/-- The sample listing holds the non-archive `charts/index.yaml`: the loop gives the
same result without it, and fetches the three archives only. -/
theorem only_archives_contribute_witness :
    archives sampleListing
      = [sampleObject "charts/foo-1.0.0.tgz", sampleObject "charts/bar-2.0.0.tgz",
         sampleObject "charts/foo-0.9.0.tgz"] ∧
    mainLoop (sampleEnv sampleListing) sampleCfg sampleListing initVars
      = mainLoop (sampleEnv sampleListing) sampleCfg (archives sampleListing) initVars :=
  ⟨by decide,
    (only_archives_contribute (sampleEnv sampleListing) sampleCfg sampleListing initVars).1⟩

/-! ## The URL list -/

/-- C9, as stated, fails: the manifest of `web-0.1.0.tgz` parses and declares a `urls`
field; the entry built from it lists two URLs, the declared one and then the storage
location. -/
theorem urls_counterexample :
    ∃ v, (mainLoop (sampleEnv []) sampleCfg [sampleObject "charts/web-0.1.0.tgz"] initVars).2
        = .ok v ∧
      ∃ e ∈ allEntries v.index,
        e.Urls = ["https://example.com/web-0.1.0.tgz", "s3://charts-bucket/charts/web-0.1.0.tgz"] ∧
        e.Urls ≠ ["s3://" ++ "charts-bucket" ++ "/" ++ "charts/web-0.1.0.tgz"] := by
  refine ⟨(specEntries (sampleEnv []) sampleCfg [sampleObject "charts/web-0.1.0.tgz"]).foldl
    addEntry initVars, by decide, ?_⟩
  refine ⟨{ zeroEntry with
      ApiVersion := "v2", Name := "web", Version := "0.1.0",
      Created := "2020-09-13T12:26:40Z", Digest := "e010",
      Urls := ["https://example.com/web-0.1.0.tgz", "s3://charts-bucket/charts/web-0.1.0.tgz"] },
    by decide, rfl, by decide⟩

/-- C9, amended: after a successful listing loop the index holds, with multiplicity,
exactly the entries built from the archives of the listing.  Every entry of the index
is the parsed first manifest of one `.tgz` object of the listing, completed with that
object's timestamp and digest, and its URL list is the `urls` list of that parsed
manifest followed by one more URL, the storage location `s3://` + bucket + `/` + key of
that same object; it is that URL alone when the manifest declares no `urls`.
Conversely every `.tgz` object of the listing whose first manifest parses has its entry
in the index, with the declared `urls` kept in front of the storage location. -/
theorem urls_end_with_storage_location (env : Env) (cfg : Config) (objs : List Object)
    (v : Vars) (hloop : (mainLoop env cfg objs initVars).2 = .ok v) :
    (allEntries v.index).Perm (specEntries env cfg objs) ∧
    (∀ e ∈ allEntries v.index, ∃ o ∈ objs, HasSuffix o.Key ".tgz" = true ∧
      ∃ object tr hd content parsed digest,
        env.GetObject cfg.s3BucketName o.Key = .ok object ∧
        env.gzipNewReader object.Body = .ok tr ∧
        tr.find? stopsScan = some (.member hd (.ok content)) ∧
        env.yamlUnmarshal content = .ok parsed ∧
        mapLookup object.Metadata "chart-digest" = some digest ∧
        e = { parsed with
          Urls := parsed.Urls ++ ["s3://" ++ cfg.s3BucketName ++ "/" ++ o.Key]
          Created := env.Format o.LastModified RFC3339Nano
          Digest := digest } ∧
        e.Urls = parsed.Urls ++ ["s3://" ++ cfg.s3BucketName ++ "/" ++ o.Key] ∧
        (parsed.Urls = [] → e.Urls = ["s3://" ++ cfg.s3BucketName ++ "/" ++ o.Key])) ∧
    (∀ o ∈ objs, HasSuffix o.Key ".tgz" = true → ∀ object tr hd content parsed,
      env.GetObject cfg.s3BucketName o.Key = .ok object →
      env.gzipNewReader object.Body = .ok tr →
      tr.find? stopsScan = some (.member hd (.ok content)) →
      env.yamlUnmarshal content = .ok parsed →
      ∃ e ∈ allEntries v.index, ∃ digest,
        mapLookup object.Metadata "chart-digest" = some digest ∧
        e = { parsed with
          Urls := parsed.Urls ++ ["s3://" ++ cfg.s3BucketName ++ "/" ++ o.Key]
          Created := env.Format o.LastModified RFC3339Nano
          Digest := digest } ∧
        e.Urls = parsed.Urls ++ ["s3://" ++ cfg.s3BucketName ++ "/" ++ o.Key]) := by
  have hv := mainLoop_ok_eq env cfg objs initVars v hloop
  have hmem : ∀ e, e ∈ allEntries v.index ↔ e ∈ specEntries env cfg objs := by
    intro e
    rw [hv, mem_allEntries_foldl]
    simp [initVars, allEntries]
  refine ⟨?_, ?_, ?_⟩
  · rw [hv]
    have := perm_allEntries_foldl (specEntries env cfg objs) initVars
    simpa [initVars, allEntries] using this
  · intro e he
    have hs := (hmem e).mp he
    obtain ⟨o, ho, hoe⟩ := List.mem_filterMap.mp hs
    have hf := List.mem_filter.mp ho
    obtain ⟨object, tr, hd, content, parsed, digest, hget, hgz, hfind, hy, hl, heq⟩ :=
      specArchiveEntry_eq_some env cfg o e hoe
    refine ⟨o, hf.1, by simpa using hf.2, object, tr, hd, content, parsed, digest, hget, hgz,
      hfind, hy, hl, heq, by rw [heq], ?_⟩
    intro hnil
    rw [heq]
    simp [hnil]
  · intro o ho ht object tr hd content parsed hget hgz hfind hy
    have hs : HasSuffix hd.Name "Chart.yaml" = true := by
      have := List.find?_some hfind
      simpa [stopsScan] using this
    cases hl : mapLookup object.Metadata "chart-digest" with
    | none =>
      exfalso
      obtain ⟨e, he⟩ := mainLoop_error_of_no_digest env cfg objs o object tr ho ht hget hgz
        ⟨_, List.mem_of_find?_eq_some hfind, hd, _, rfl, hs⟩ hl initVars
      rw [he] at hloop
      cases hloop
    | some digest =>
      have hsome : specArchiveEntry env cfg o = some { parsed with
          Urls := parsed.Urls ++ ["s3://" ++ cfg.s3BucketName ++ "/" ++ o.Key]
          Created := env.Format o.LastModified RFC3339Nano
          Digest := digest } := by
        simp [specArchiveEntry, hget, hgz, hfind, hy, hl]
      refine ⟨_, (hmem _).mpr ?_, digest, rfl, rfl, rfl⟩
      exact List.mem_filterMap.mpr ⟨o, List.mem_filter.mpr ⟨ho, by simpa using ht⟩, hsome⟩

/-- On a listing of the sample bucket that holds `web-0.1.0.tgz`, whose manifest declares
one URL, the index holds exactly the two built entries: the entry of `foo`, whose
manifest declares no URL, lists its storage location alone, and the entry of `web` lists
the declared URL and then its storage location. -/
theorem urls_end_with_storage_location_witness :
    (mainLoop (sampleEnv []) sampleCfg sampleWebListing initVars).2 = .ok sampleWebVars ∧
    (allEntries sampleWebVars.index).Perm (specEntries (sampleEnv []) sampleCfg sampleWebListing) ∧
    (specEntries (sampleEnv []) sampleCfg sampleWebListing).map (fun e => (e.Name, e.Urls))
      = [("foo", ["s3://charts-bucket/charts/foo-1.0.0.tgz"]),
         ("web", ["https://example.com/web-0.1.0.tgz",
                  "s3://charts-bucket/charts/web-0.1.0.tgz"])] ∧
    (∃ e ∈ allEntries sampleWebVars.index, ∃ digest,
      mapLookup [("chart-digest", "e010")] "chart-digest" = some digest ∧
      e = { sampleWebManifest with
        Urls := sampleWebManifest.Urls ++ ["s3://" ++ "charts-bucket" ++ "/" ++ "charts/web-0.1.0.tgz"]
        Created := "2020-09-13T12:26:40Z"
        Digest := digest } ∧
      e.Urls = ["https://example.com/web-0.1.0.tgz"]
        ++ ["s3://" ++ "charts-bucket" ++ "/" ++ "charts/web-0.1.0.tgz"]) :=
  ⟨by decide,
    (urls_end_with_storage_location (sampleEnv []) sampleCfg sampleWebListing sampleWebVars
      (by decide)).1,
    by decide,
    (urls_end_with_storage_location (sampleEnv []) sampleCfg sampleWebListing sampleWebVars
      (by decide)).2.2 (sampleObject "charts/web-0.1.0.tgz") (by decide) (by decide)
      { Body := "web-0.1.0", Metadata := [("chart-digest", "e010")] }
      [.member { Name := "web/Chart.yaml" }
        (.ok "apiVersion: v2\nname: web\nurls:\n- https://example.com/web-0.1.0.tgz\nversion: 0.1.0\n")]
      { Name := "web/Chart.yaml" }
      "apiVersion: v2\nname: web\nurls:\n- https://example.com/web-0.1.0.tgz\nversion: 0.1.0\n"
      sampleWebManifest rfl rfl (by decide) (by decide)⟩

/-! ## The key prefix -/

/-- C10: the normalised key prefix of a directory option `d` is `d` itself when `d` is
empty or ends in `/`, and `d` followed by `/` otherwise; it is empty or ends in `/`;
normalising twice is normalising once; `init` stores it in `s3KeyPrefix`, and every
upload of a run goes to the key made of the normalised prefix followed by `index.yaml`,
which is `index.yaml` for the empty directory. -/
theorem directory_is_normalised (d : String) :
    ((d = "" ∨ HasSuffix d "/" = true) → normalize d = d) ∧
    (¬ (d = "" ∨ HasSuffix d "/" = true) → normalize d = d ++ "/") ∧
    (normalize d = "" ∨ HasSuffix (normalize d) "/" = true) ∧
    normalize (normalize d) = normalize d ∧
    (∀ flags cfg, flags.directory = d → (init flags).2 = .ok cfg →
      cfg.s3KeyPrefix = normalize d) ∧
    (∀ env flags bucket key body, flags.directory = d →
      Effect.putObject bucket key body ∈ (run env flags).1 →
      key = normalize d ++ "index.yaml") ∧
    normalize "" ++ "index.yaml" = "index.yaml" := by
  refine ⟨?_, ?_, normalize_cases d, normalize_idem d, ?_, ?_, by decide⟩
  · rintro (h | h)
    · rw [h]; rfl
    · exact normalize_of_slash d h
  · intro h
    have h0 : d ≠ "" := fun e => h (Or.inl e)
    have h1 : HasSuffix d "/" = false := by
      cases hs : HasSuffix d "/"
      · rfl
      · exact absurd (Or.inr hs) h
    exact normalize_of_not d h0 h1
  · intro flags cfg hd hi
    unfold init at hi
    by_cases hf : (flags.bucket.length = 0 || flags.profile.length = 0) = true
    · simp [hf] at hi
    · simp [hf] at hi
      rw [← hi, hd]
  · intro env flags bucket key body hd h
    rw [← hd]
    exact (run_putObject env flags bucket key body h).2

/-- A run with the directory option `charts` and the upload flag: the prefix is
`charts/` and the index is uploaded to `charts/index.yaml`. -/
theorem directory_is_normalised_witness :
    normalize "charts" = "charts" ++ "/" ∧
    Effect.putObject "charts-bucket" "charts/index.yaml"
        "apiVersion: v2\nentries: foo bar \ngenerated: 2023-11-14T22:13:20Z\n"
      ∈ (run (sampleEnv sampleListing)
          { bucket := "charts-bucket", directory := "charts", profile := "default",
            upload := true }).1 ∧
    "charts/index.yaml" = normalize "charts" ++ "index.yaml" :=
  ⟨(directory_is_normalised "charts").2.1 (by decide), by decide,
    (directory_is_normalised "charts").2.2.2.2.2.1 (sampleEnv sampleListing)
      { bucket := "charts-bucket", directory := "charts", profile := "default", upload := true }
      "charts-bucket" "charts/index.yaml"
      "apiVersion: v2\nentries: foo bar \ngenerated: 2023-11-14T22:13:20Z\n" rfl (by decide)⟩

end HelmRestore
